import Mathlib

/-!
Verification of the bio-forge molecular-structure toolkit: a shallow
embedding in Lean 4 of its spatial grid index (`src/model/grid.rs`), its
structure/topology data model (`src/model/{atom,residue,chain,topology,
template}.rs`) and its topology-inference engine (`src/ops/topology.rs`),
with theorems settling the specification's claims about them.

Numeric convention: the Rust code computes over `f64`; the embedding uses
exact rationals (`ℚ`), so every geometric comparison (always performed on
squared distances in the code, never on square roots) is exact.

Missing-source convention: the repository files `src/model/types.rs`,
`src/model/structure.rs`, `src/ops/error.rs` and the template-database
store (`src/db/{loader,schema,store}.rs`) are not present; the definitions
for those parts carry a doc comment starting `Modelled from the spec:` and
follow the specification's words.
-/

set_option autoImplicit false

namespace BioForge

/-- Modelled from the spec: `Point` (src/model/types.rs is missing) —
3D double-precision coordinates with value semantics; embedded over ℚ. -/
structure Point where
  x : ℚ
  y : ℚ
  z : ℚ
  deriving DecidableEq, Repr

/-- The all-zero point (`Point::origin()`). -/
def Point.origin : Point := ⟨0, 0, 0⟩

/-- Squared Euclidean distance (`nalgebra::distance_squared`); the code
always compares squared distances against squared cutoffs. -/
def distSq (p q : Point) : ℚ :=
  (p.x - q.x) ^ 2 + (p.y - q.y) ^ 2 + (p.z - q.z) ^ 2

/-- Modelled from the spec: `Element` (src/model/types.rs is missing) —
"enumerated chemical element"; only the variants the embedded code
touches are listed. -/
inductive Element where
  | H | C | N | O | S | P | Fe | Unknown
  deriving DecidableEq, Repr

/-- `BondOrder` from src/model/types.rs (missing file); the spec fixes the
variants: "enumerated {Single, Double, Triple, Aromatic}". -/
inductive BondOrder where
  | Single | Double | Triple | Aromatic
  deriving DecidableEq, Repr

/-- Modelled from the spec: `ResidueCategory` (src/model/types.rs is
missing) — "category enum {Standard, Hetero, Ion, Water...}". -/
inductive ResidueCategory where
  | Standard | Hetero | Ion | Water
  deriving DecidableEq, Repr

/-- Modelled from the spec: `ResiduePosition` (src/model/types.rs is
missing) — "sequence-position tag {None, NTerminal, CTerminal, Internal,
FivePrime, ThreePrime}". -/
inductive ResiduePosition where
  | NonePos | NTerminal | CTerminal | Internal | FivePrime | ThreePrime
  deriving DecidableEq, Repr

/-- Modelled from the spec: `StandardResidue` (src/model/types.rs is
missing) — the recognized standard residue names, used by the engine only
through the `is_protein` / `is_nucleic` classification, so the embedding
keeps exactly that classification. -/
inductive StandardResidue where
  | protein | nucleic | water
  deriving DecidableEq, Repr

/-- `StandardResidue::is_protein` (classification used by src/ops/topology.rs). -/
def StandardResidue.is_protein : StandardResidue → Bool
  | .protein => true
  | _ => false

/-- `StandardResidue::is_nucleic` (classification used by src/ops/topology.rs). -/
def StandardResidue.is_nucleic : StandardResidue → Bool
  | .nucleic => true
  | _ => false

/-- `Atom` from src/model/atom.rs: name, element, position. -/
structure Atom where
  name : String
  element : Element
  pos : Point
  deriving DecidableEq, Repr

/-- `Residue` from src/model/residue.rs: id, name, category, position and
the ordered atom list. The `standard_name` field is read by
src/ops/topology.rs (`residue.standard_name`); its declaration lives in the
missing part of the model and is modelled from the spec ("recognized
standard name"). -/
structure Residue where
  id : Int
  name : String
  category : ResidueCategory
  position : ResiduePosition
  standard_name : Option StandardResidue
  atoms : List Atom
  deriving DecidableEq, Repr

/-- Helper for `Iterator::position` / `find` over a residue's atoms: the
first atom with the given name together with its index, scanning from
index `k`. -/
def findAtomAux (n : String) : ℕ → List Atom → Option (ℕ × Atom)
  | _, [] => none
  | k, a :: rest => if a.name = n then some (k, a) else findAtomAux n (k + 1) rest

/-- First atom with the given name, with its index in declaration order. -/
def Residue.findAtom (r : Residue) (n : String) : Option (ℕ × Atom) :=
  findAtomAux n 0 r.atoms

/-- `residue.iter_atoms().position(|a| a.name == name)` from the source. -/
def Residue.atomPosition (r : Residue) (n : String) : Option ℕ :=
  (r.findAtom n).map (·.1)

/-- `Residue::atom` from src/model/residue.rs. -/
def Residue.atom (r : Residue) (n : String) : Option Atom :=
  (r.findAtom n).map (·.2)

/-- `Residue::has_atom` from src/model/residue.rs. -/
def Residue.has_atom (r : Residue) (n : String) : Bool :=
  (r.atom n).isSome

/-- `Residue::atom_count` from src/model/residue.rs. -/
def Residue.atomCount (r : Residue) : ℕ :=
  r.atoms.length

/-- `Chain` from src/model/chain.rs: string id and ordered residue list. -/
structure Chain where
  id : String
  residues : List Residue
  deriving DecidableEq, Repr

/-- Modelled from the spec: `Structure` (src/model/structure.rs is
missing) — "ordered list of chains" providing "flattened iteration over
all atoms … in a stable global order"; the periodic box plays no role in
the claims. -/
structure Structure where
  chains : List Chain
  deriving DecidableEq, Repr

/-- `Structure::atom_count`: total atoms of the chain → residue → atom
traversal (spec: "every bond index is < structure.atom_count()"). -/
def Structure.atom_count (s : Structure) : ℕ :=
  (s.chains.map (fun c => (c.residues.map Residue.atomCount).sum)).sum

/-- `Bond` from src/model/topology.rs: two flat atom indices plus an order. -/
structure Bond where
  a1_idx : ℕ
  a2_idx : ℕ
  order : BondOrder
  deriving DecidableEq, Repr

/-- `Bond::new` from src/model/topology.rs: canonicalizing constructor
that swaps the indices so that `a1_idx ≤ a2_idx`. -/
def Bond.new (idx1 idx2 : ℕ) (order : BondOrder) : Bond :=
  if idx1 ≤ idx2 then ⟨idx1, idx2, order⟩ else ⟨idx2, idx1, order⟩

/-- `Topology` from src/model/topology.rs: a structure plus its bond list. -/
structure Topology where
  struct : Structure
  bonds : List Bond
  deriving DecidableEq, Repr

/-- `Template` from src/model/template.rs: named atom list plus bonds
referencing those names. -/
structure Template where
  name : String
  atom_names : List String
  bonds : List (String × String × BondOrder)
  deriving DecidableEq, Repr

/-- Modelled from the spec: the error taxonomy of src/ops/error.rs (file
missing) — "MissingInternalTemplate { res_name }, MissingUserTemplate
{ res_name }, TopologyAtomMissing { res_name, res_id, atom_name }". -/
inductive Error where
  | MissingInternalTemplate (res_name : String)
  | MissingUserTemplate (res_name : String)
  | TopologyAtomMissing (res_name : String) (res_id : Int) (atom_name : String)
  deriving DecidableEq, Repr

/-- Modelled from the spec: the view of an internal (built-in database)
template as used through `db::TemplateView` (src/db/{loader,schema,store}.rs
are missing) — a bond list `(a1, a2, order)` and "a parallel list of
hydrogens with candidate anchor atoms". -/
structure InternalTemplate where
  name : String
  bonds : List (String × String × BondOrder)
  hydrogens : List (String × List String)
  deriving DecidableEq, Repr

/-- `TopologyBuilder` from src/ops/topology.rs: user templates keyed by
name (the HashMap embedded as an association list) and the three distance
cutoffs. The process-wide internal registry reached through
`db::get_template` is passed explicitly as the `internal_db` field; its
contents are part of the missing database files. -/
structure TopologyBuilder where
  user_templates : List (String × Template)
  disulfide_bond_cutoff : ℚ
  peptide_bond_cutoff : ℚ
  nucleic_bond_cutoff : ℚ
  internal_db : String → Option InternalTemplate

/-- `TopologyBuilder::default` (src/ops/topology.rs): no user templates,
cutoffs 2.2 / 1.5 / 1.8 Å, over a given internal registry. -/
def TopologyBuilder.default (db : String → Option InternalTemplate) : TopologyBuilder :=
  { user_templates := []
    disulfide_bond_cutoff := 22 / 10
    peptide_bond_cutoff := 15 / 10
    nucleic_bond_cutoff := 18 / 10
    internal_db := db }

/-- `HashMap::get` on the user templates (embedded association list). -/
def lookupTemplate (ts : List (String × Template)) (n : String) : Option Template :=
  (ts.find? (fun p => p.1 = n)).map (·.2)

/-- `TopologyBuilder::is_optional_terminal_atom` from src/ops/topology.rs. -/
def TopologyBuilder.is_optional_terminal_atom (_b : TopologyBuilder)
    (residue : Residue) (atom_name : String) : Bool :=
  let is_protein := residue.standard_name.any (fun std => std.is_protein)
  let is_nucleic := residue.standard_name.any (fun std => std.is_nucleic)
  match residue.position with
  | .NTerminal => is_protein && atom_name = "H"
  | .CTerminal => is_protein && (atom_name = "HXT" || atom_name = "HOXT")
  | .FivePrime => is_nucleic && atom_name = "HO5'"
  | .ThreePrime => is_nucleic && atom_name = "HO3'"
  | _ => false

/-- `TopologyBuilder::try_add_bond` from src/ops/topology.rs: push the
canonical bond when both atoms resolve; silently skip when a missing atom
is an optional terminal atom; otherwise `TopologyAtomMissing`. The match
arms reproduce the Rust guard order (a missing first atom is tested for
optionality before the second). -/
def TopologyBuilder.try_add_bond (b : TopologyBuilder) (residue : Residue)
    (offset : ℕ) (name1 name2 : String) (order : BondOrder)
    (bonds : List Bond) : Except Error (List Bond) :=
  match residue.atomPosition name1, residue.atomPosition name2 with
  | some i1, some i2 =>
      .ok (bonds ++ [Bond.new (offset + i1) (offset + i2) order])
  | none, some _ =>
      if b.is_optional_terminal_atom residue name1 then .ok bonds
      else .error (.TopologyAtomMissing residue.name residue.id name1)
  | some _, none =>
      if b.is_optional_terminal_atom residue name2 then .ok bonds
      else .error (.TopologyAtomMissing residue.name residue.id name2)
  | none, none =>
      if b.is_optional_terminal_atom residue name1 then .ok bonds
      else if b.is_optional_terminal_atom residue name2 then .ok bonds
      else .error (.TopologyAtomMissing residue.name residue.id name1)

/-- One `H1`/`H2`/`H3`-to-`N` step of the N-terminal loop in
`TopologyBuilder::handle_terminal_intra_bonds`. -/
def nTerminalHBond (residue : Residue) (offset : ℕ) (h_name : String)
    (bonds : List Bond) : List Bond :=
  if residue.has_atom h_name then
    match residue.atomPosition h_name, residue.atomPosition "N" with
    | some h_idx, some n_idx =>
        bonds ++ [Bond.new (offset + h_idx) (offset + n_idx) .Single]
    | _, _ => bonds
  else bonds

/-- `TopologyBuilder::handle_terminal_intra_bonds` from src/ops/topology.rs.
The Rust function returns `Result<(), Error>` but every path is `Ok`, so the
embedding returns the extended bond list directly. -/
def TopologyBuilder.handle_terminal_intra_bonds (_b : TopologyBuilder)
    (residue : Residue) (offset : ℕ) (bonds : List Bond) : List Bond :=
  let bonds :=
    if residue.position = .NTerminal
        && residue.standard_name.any (fun s => s.is_protein) then
      nTerminalHBond residue offset "H3"
        (nTerminalHBond residue offset "H2"
          (nTerminalHBond residue offset "H1" bonds))
    else bonds
  let bonds :=
    if residue.position = .CTerminal
        && residue.standard_name.any (fun s => s.is_protein) then
      match residue.atomPosition "C" with
      | some c_idx =>
          match residue.atomPosition "OXT" with
          | some oxt_idx =>
              let bonds := bonds ++ [Bond.new (offset + c_idx) (offset + oxt_idx) .Single]
              let bonds :=
                match residue.atomPosition "HXT" with
                | some h_idx => bonds ++ [Bond.new (offset + oxt_idx) (offset + h_idx) .Single]
                | none => bonds
              match residue.atomPosition "HOXT" with
              | some h_idx => bonds ++ [Bond.new (offset + oxt_idx) (offset + h_idx) .Single]
              | none => bonds
          | none => bonds
      | none => bonds
    else bonds
  let bonds :=
    if residue.position = .FivePrime
        && residue.standard_name.any (fun s => s.is_nucleic) then
      match residue.atomPosition "HO5'", residue.atomPosition "O5'" with
      | some h_idx, some o_idx =>
          bonds ++ [Bond.new (offset + h_idx) (offset + o_idx) .Single]
      | _, _ => bonds
    else bonds
  if residue.position = .ThreePrime
      && residue.standard_name.any (fun s => s.is_nucleic) then
    match residue.atomPosition "HO3'", residue.atomPosition "O3'" with
    | some h_idx, some o_idx =>
        bonds ++ [Bond.new (offset + h_idx) (offset + o_idx) .Single]
    | _, _ => bonds
  else bonds

/-- The template-bond loop of `build_intra_residue`: fold `try_add_bond`
over a template's bond list. -/
def TopologyBuilder.addTemplateBonds (b : TopologyBuilder) (residue : Residue)
    (offset : ℕ) : List (String × String × BondOrder) → List Bond →
    Except Error (List Bond)
  | [], bonds => .ok bonds
  | (a1, a2, order) :: rest, bonds =>
      match b.try_add_bond residue offset a1 a2 order bonds with
      | .error e => .error e
      | .ok bonds => b.addTemplateBonds residue offset rest bonds

/-- The template-hydrogen loop of `build_intra_residue`: each hydrogen with
at least one candidate anchor that is actually present in the residue is
bonded (order Single) to the first listed anchor via `try_add_bond`. -/
def TopologyBuilder.addTemplateHydrogens (b : TopologyBuilder) (residue : Residue)
    (offset : ℕ) : List (String × List String) → List Bond →
    Except Error (List Bond)
  | [], bonds => .ok bonds
  | (h_name, anchors) :: rest, bonds =>
      match (match anchors.head? with
             | some anchor =>
                 if residue.has_atom h_name then
                   b.try_add_bond residue offset h_name anchor .Single bonds
                 else .ok bonds
             | none => .ok bonds) with
      | .error e => .error e
      | .ok bonds => b.addTemplateHydrogens residue offset rest bonds

/-- The body of `build_intra_residue`'s per-residue loop iteration
(src/ops/topology.rs lines 63–122), excluding the offset advance. -/
def TopologyBuilder.processResidue (b : TopologyBuilder) (residue : Residue)
    (offset : ℕ) (bonds : List Bond) : Except Error (List Bond) :=
  if residue.category = .Ion then .ok bonds
  else if residue.category = .Standard then
    match b.internal_db residue.name with
    | none => .error (.MissingInternalTemplate residue.name)
    | some tmpl =>
        match b.addTemplateBonds residue offset tmpl.bonds bonds with
        | .error e => .error e
        | .ok bonds =>
            match b.addTemplateHydrogens residue offset tmpl.hydrogens bonds with
            | .error e => .error e
            | .ok bonds => .ok (b.handle_terminal_intra_bonds residue offset bonds)
  else if residue.category = .Hetero then
    match lookupTemplate b.user_templates residue.name with
    | none => .error (.MissingUserTemplate residue.name)
    | some tmpl => b.addTemplateBonds residue offset tmpl.bonds bonds
  else .ok bonds

/-- `build_intra_residue`'s residue loop for one chain, threading the
running flat-atom-index offset (which advances by the residue's atom count
after every residue, including skipped ones). -/
def TopologyBuilder.intraChain (b : TopologyBuilder) :
    List Residue → ℕ → List Bond → Except Error (ℕ × List Bond)
  | [], offset, bonds => .ok (offset, bonds)
  | r :: rest, offset, bonds =>
      match b.processResidue r offset bonds with
      | .error e => .error e
      | .ok bonds => b.intraChain rest (offset + r.atomCount) bonds

/-- `build_intra_residue`'s chain loop. -/
def TopologyBuilder.intraChains (b : TopologyBuilder) :
    List Chain → ℕ → List Bond → Except Error (ℕ × List Bond)
  | [], offset, bonds => .ok (offset, bonds)
  | c :: rest, offset, bonds =>
      match b.intraChain c.residues offset bonds with
      | .error e => .error e
      | .ok (offset, bonds) => b.intraChains rest offset bonds

/-- `TopologyBuilder::build_intra_residue` from src/ops/topology.rs. -/
def TopologyBuilder.build_intra_residue (b : TopologyBuilder) (s : Structure)
    (bonds : List Bond) : Except Error (List Bond) :=
  (b.intraChains s.chains 0 bonds).map (·.2)

/-- Per-chain prefix sums of residue atom counts starting at a given
offset: the `residue_offsets` table of `build_inter_residue`, one chain. -/
def chainOffsets : List Residue → ℕ → List ℕ × ℕ
  | [], offset => ([], offset)
  | r :: rest, offset =>
      let (tl, fin) := chainOffsets rest (offset + r.atomCount)
      (offset :: tl, fin)

/-- The full `residue_offsets` table of `build_inter_residue`. -/
def residueOffsetsAux : List Chain → ℕ → List (List ℕ)
  | [], _ => []
  | c :: rest, offset =>
      let (offs, fin) := chainOffsets c.residues offset
      offs :: residueOffsetsAux rest fin

/-- `residue_offsets` computed over the whole structure. -/
def residueOffsets (s : Structure) : List (List ℕ) :=
  residueOffsetsAux s.chains 0

/-- `TopologyBuilder::connect_atoms_if_close` from src/ops/topology.rs:
geometry-gated bond between two named atoms of two residues. -/
def TopologyBuilder.connect_atoms_if_close (_b : TopologyBuilder)
    (res1 : Residue) (offset1 : ℕ) (name1 : String)
    (res2 : Residue) (offset2 : ℕ) (name2 : String)
    (cutoff : ℚ) (order : BondOrder) (bonds : List Bond) : List Bond :=
  match res1.findAtom name1, res2.findAtom name2 with
  | some (idx1, a1), some (idx2, a2) =>
      if distSq a1.pos a2.pos ≤ cutoff * cutoff then
        bonds ++ [Bond.new (offset1 + idx1) (offset2 + idx2) order]
      else bonds
  | _, _ => bonds

/-- The consecutive-residue-pair loop of `build_inter_residue` for one
chain, walking the residues and their offsets in parallel. -/
def TopologyBuilder.interChainPairs (b : TopologyBuilder) :
    List Residue → List ℕ → List Bond → List Bond
  | curr :: next :: rres, curr_offset :: next_offset :: roffs, bonds =>
      let bonds :=
        if curr.category = .Standard && next.category = .Standard then
          match curr.standard_name, next.standard_name with
          | some std1, some std2 =>
              if std1.is_protein && std2.is_protein then
                b.connect_atoms_if_close curr curr_offset "C" next next_offset "N"
                  b.peptide_bond_cutoff .Single bonds
              else if std1.is_nucleic && std2.is_nucleic then
                b.connect_atoms_if_close curr curr_offset "O3'" next next_offset "P"
                  b.nucleic_bond_cutoff .Single bonds
              else bonds
          | _, _ => bonds
        else bonds
      b.interChainPairs (next :: rres) (next_offset :: roffs) bonds
  | _, _, bonds => bonds

/-- The `SG` sulfur collection of `build_inter_residue`: flat index and
position of the `SG` atom of every residue named `CYX` or `CYM`, in
structure traversal order, one chain at a time. -/
def sulfurAtomsChain : List Residue → List ℕ → List (ℕ × Point)
  | r :: rres, off :: roffs =>
      (if r.name = "CYX" || r.name = "CYM" then
        match r.findAtom "SG" with
        | some (i, a) => [(off + i, a.pos)]
        | none => []
      else []) ++ sulfurAtomsChain rres roffs
  | _, _ => []

/-- The sulfur collection over all chains. -/
def sulfurAtoms : List Chain → List (List ℕ) → List (ℕ × Point)
  | c :: rest, offs :: roffs => sulfurAtomsChain c.residues offs ++ sulfurAtoms rest roffs
  | _, _ => []

/-- The all-pairs disulfide loop of `build_inter_residue`: for every pair
`i < j` of collected sulfurs within the squared cutoff, a Single bond. -/
def disulfidePairs (cutoff_sq : ℚ) : List (ℕ × Point) → List Bond
  | [] => []
  | (idx1, pos1) :: rest =>
      ((rest.filter (fun q => distSq pos1 q.2 ≤ cutoff_sq)).map
        (fun q => Bond.new idx1 q.1 .Single)) ++ disulfidePairs cutoff_sq rest

/-- `TopologyBuilder::build_inter_residue` from src/ops/topology.rs. The
Rust function returns `Result<(), Error>` but every path is `Ok`, so the
embedding returns the extended bond list directly. -/
def TopologyBuilder.build_inter_residue (b : TopologyBuilder) (s : Structure)
    (bonds : List Bond) : List Bond :=
  let offsets := residueOffsets s
  let bonds :=
    (s.chains.zip offsets).foldl
      (fun bonds p => b.interChainPairs p.1.residues p.2 bonds) bonds
  let sulfurs := sulfurAtoms s.chains offsets
  bonds ++ disulfidePairs (b.disulfide_bond_cutoff * b.disulfide_bond_cutoff) sulfurs

/-- `TopologyBuilder::build` from src/ops/topology.rs: intra-residue phase,
then inter-residue phase, then `Topology::new`. -/
def TopologyBuilder.build (b : TopologyBuilder) (s : Structure) :
    Except Error Topology :=
  match b.build_intra_residue s [] with
  | .error e => .error e
  | .ok bonds => .ok ⟨s, b.build_inter_residue s bonds⟩

/-- Componentwise minimum (`Point::inf` from nalgebra, as used in `Grid::new`). -/
def pointInf (p q : Point) : Point := ⟨min p.x q.x, min p.y q.y, min p.z q.z⟩

/-- Componentwise maximum (`Point::sup` from nalgebra, as used in `Grid::new`). -/
def pointSup (p q : Point) : Point := ⟨max p.x q.x, max p.y q.y, max p.z q.z⟩

/-- `Grid` from src/model/grid.rs. The Rust `head`/`next` arrays are an
index-based singly linked list per cell (`head[c]` the first index of cell
`c`, `next[i]` the following one, `u32::MAX` the sentinel); the embedding
stores each cell's linked list explicitly as `buckets[c]`, and the
insertion `next[i] = head[c]; head[c] = i` becomes consing `i` onto
`buckets[c]`. -/
structure Grid (T : Type) where
  cell_size : ℚ
  origin : Point
  dims : ℕ × ℕ × ℕ
  buckets : List (List ℕ)
  items : List (Point × T)
  deriving DecidableEq

variable {T : Type}

/-- `Grid::get_cell_index_static` from src/model/grid.rs. The Rust
`as usize` casts apply to floors of the non-negative offsets, embedded as
`Int.toNat`. -/
def getCellIndexStatic (pos : Point) (dims : ℕ × ℕ × ℕ) (origin : Point)
    (cell_size : ℚ) : Option ℕ :=
  if pos.x < origin.x ∨ pos.y < origin.y ∨ pos.z < origin.z then none
  else
    let x := (⌊(pos.x - origin.x) / cell_size⌋).toNat
    let y := (⌊(pos.y - origin.y) / cell_size⌋).toNat
    let z := (⌊(pos.z - origin.z) / cell_size⌋).toNat
    if dims.1 ≤ x ∨ dims.2.1 ≤ y ∨ dims.2.2 ≤ z then none
    else some (x + y * dims.1 + z * dims.1 * dims.2.1)

/-- One step of the item-insertion loop of `Grid::new`: an item with a
valid cell is linked to the front of its cell's list (`next[i] = head[c];
head[c] = i`). -/
def bucketInsert (dims : ℕ × ℕ × ℕ) (origin : Point) (cell_size : ℚ)
    (bks : List (List ℕ)) (p : ℕ × (Point × T)) : List (List ℕ) :=
  match getCellIndexStatic p.2.1 dims origin cell_size with
  | some c => bks.set c (p.1 :: bks.getD c [])
  | none => bks

/-- The item-insertion loop of `Grid::new` over the enumerated items. -/
def buildBuckets (items : List (Point × T)) (dims : ℕ × ℕ × ℕ) (origin : Point)
    (cell_size : ℚ) (total : ℕ) : List (List ℕ) :=
  items.enum.foldl (bucketInsert dims origin cell_size) (List.replicate total [])

/-- The componentwise-minimum fold of `Grid::new` (`min = min.inf(pos)`),
started from the first item's position. -/
def gridMin (p0 : Point) (rest : List (Point × T)) : Point :=
  rest.foldl (fun acc pr => pointInf acc pr.1) p0

/-- The componentwise-maximum fold of `Grid::new`. -/
def gridMax (p0 : Point) (rest : List (Point × T)) : Point :=
  rest.foldl (fun acc pr => pointSup acc pr.1) p0

/-- Per-axis cell counts of `Grid::new`: the bounding box is padded by the
`1e-6` epsilon and each extent divided by the cell size, rounded up (the
Rust `as usize` on the positive ceilings is `Int.toNat`). -/
def dimsOf (mn mx0 : Point) (cell_size : ℚ) : ℕ × ℕ × ℕ :=
  ((⌈(mx0.x + 1 / 1000000 - mn.x) / cell_size⌉).toNat,
   (⌈(mx0.y + 1 / 1000000 - mn.y) / cell_size⌉).toNat,
   (⌈(mx0.z + 1 / 1000000 - mn.z) / cell_size⌉).toNat)

/-- The non-degenerate construction path of `Grid::new`. -/
def nonemptyGrid (items : List (Point × T)) (p0 : Point)
    (rest : List (Point × T)) (cell_size : ℚ) : Grid T :=
  let mn := gridMin p0 rest
  let dims := dimsOf mn (gridMax p0 rest) cell_size
  let total := dims.1 * dims.2.1 * dims.2.2
  ⟨cell_size, mn, dims, buildBuckets items dims mn cell_size total, items⟩

/-- `Grid::new` from src/model/grid.rs. The construction-time panic on a
non-positive cell size is embedded as `none`; empty input yields the
degenerate zero-cell grid; otherwise `nonemptyGrid`. -/
def Grid.new (items : List (Point × T)) (cell_size : ℚ) : Option (Grid T) :=
  if cell_size ≤ 0 then none
  else some (match items with
    | [] => ⟨cell_size, Point.origin, (0, 0, 0), [], []⟩
    | (p0, _) :: rest => nonemptyGrid items p0 rest cell_size)

/-- `isize` clamp to `[0, d - 1]` followed by the cast to `usize`, as in
`Grid::get_grid_coords`. -/
def clampCoord (v : ℤ) (d : ℕ) : ℕ := (max 0 (min v ((d : ℤ) - 1))).toNat

/-- `Grid::get_grid_coords` from src/model/grid.rs: per-axis floor of the
offset over the cell size, clamped to the valid cell range. -/
def Grid.getGridCoords (g : Grid T) (pos : Point) : ℕ × ℕ × ℕ :=
  (clampCoord ⌊(pos.x - g.origin.x) / g.cell_size⌋ g.dims.1,
   clampCoord ⌊(pos.y - g.origin.y) / g.cell_size⌋ g.dims.2.1,
   clampCoord ⌊(pos.z - g.origin.z) / g.cell_size⌋ g.dims.2.2)

/-- The inclusive coordinate range `a..=b` walked by the neighborhood
iterators (empty when `b < a`). -/
def cellRange (a b : ℕ) : List ℕ := List.range' a (b + 1 - a)

/-- The cells scanned by `GridNeighborhood`: the axis-aligned box
`[center - radius, center + radius]` clamped to grid bounds, visited with
x fastest and z slowest, each cell flattened to `x + y*dx + z*dx*dy`. -/
def Grid.candidateCells (g : Grid T) (center : Point) (radius : ℚ) : List ℕ :=
  let mn := g.getGridCoords ⟨center.x - radius, center.y - radius, center.z - radius⟩
  let mx := g.getGridCoords ⟨center.x + radius, center.y + radius, center.z + radius⟩
  (cellRange mn.2.2 mx.2.2).flatMap (fun z =>
    (cellRange mn.2.1 mx.2.1).flatMap (fun y =>
      (cellRange mn.1 mx.1).map (fun x =>
        x + y * g.dims.1 + z * g.dims.1 * g.dims.2.1)))

/-- The item-index sequence yielded by the raw candidate iterator
`Grid::neighbors` (`GridNeighborhood::next`): the linked list of every
scanned cell, in scan order. An empty grid returns the immediately
exhausted iterator; the `cell_idx < head.len()` guard is `getD _ []`. -/
def Grid.candidates (g : Grid T) (center : Point) (radius : ℚ) : List ℕ :=
  if g.items.isEmpty then []
  else (g.candidateCells center radius).flatMap (fun c => g.buckets.getD c [])

/-- The squared-distance test of `ExactGridNeighborhood::next` on the item
at index `i` (`radius_sq` is `radius * radius`). -/
def Grid.withinBool (g : Grid T) (center : Point) (radius : ℚ) (i : ℕ) : Bool :=
  match g.items.get? i with
  | some pr => decide (distSq pr.1 center ≤ radius * radius)
  | none => false

/-- The item-index sequence yielded by `neighbors(center, radius).exact()`
(`ExactGridNeighborhood::next`): the candidate sequence with every item
failing the true squared-distance test skipped. -/
def Grid.exactIdx (g : Grid T) (center : Point) (radius : ℚ) : List ℕ :=
  (g.candidates center radius).filter (g.withinBool center radius)

/-- `Grid::has_neighbor` from src/model/grid.rs: true iff some raw
candidate (not exact-filtered) satisfies the predicate. -/
def Grid.has_neighbor (g : Grid T) (point : Point) (radius : ℚ)
    (predicate : T → Bool) : Bool :=
  (g.candidates point radius).any (fun i =>
    match g.items.get? i with
    | some pr => predicate pr.2
    | none => false)

/-! Spec predicates and concrete instances used by the theorems. -/

/-- Sum of the atom counts of a residue list (the flat-index span of one
chain). -/
def chainAtoms (rs : List Residue) : ℕ := (rs.map Residue.atomCount).sum

/-- Every bond's endpoints lie below `N` (the spec's Topology invariant). -/
def BondsLT (N : ℕ) (l : List Bond) : Prop :=
  ∀ bd ∈ l, bd.a1_idx < N ∧ bd.a2_idx < N

/-- Every bond is in canonical form (`a1_idx ≤ a2_idx`). -/
def CanonicalBonds (l : List Bond) : Prop :=
  ∀ bd ∈ l, bd.a1_idx ≤ bd.a2_idx

/-- The empty internal registry. -/
def emptyDb : String → Option InternalTemplate := fun _ => none

/-- A user template whose bond list names the same unordered atom pair
twice (permitted by `Template::new`, which only validates that bond names
are declared). -/
def dupTemplate : Template :=
  ⟨"XY", ["A", "B"], [("A", "B", .Single), ("B", "A", .Single)]⟩

/-- One Hetero residue matching `dupTemplate`. -/
def dupStructure : Structure :=
  ⟨[⟨"A", [⟨1, "XY", .Hetero, .NonePos, none,
    [⟨"A", .C, ⟨0, 0, 0⟩⟩, ⟨"B", .C, ⟨1, 0, 0⟩⟩]⟩]⟩]⟩

/-- Default builder carrying `dupTemplate` as a user template. -/
def dupBuilder : TopologyBuilder :=
  { TopologyBuilder.default emptyDb with user_templates := [("XY", dupTemplate)] }

/-- Modelled from the spec: a minimal internal template for alanine (the
built-in database files are missing) — backbone bonds `N–CA`, `CA–C`,
`C–O` and the amide hydrogen `H` anchored to `N`, following the spec's
template shape (atom names, bonds, hydrogens with candidate anchors). -/
def alaTemplate : InternalTemplate :=
  ⟨"ALA", [("N", "CA", .Single), ("CA", "C", .Single), ("C", "O", .Single)],
   [("H", ["N"])]⟩

/-- Registry holding only `alaTemplate`. -/
def alaDb : String → Option InternalTemplate :=
  fun n => if n = "ALA" then some alaTemplate else none

/-- Default builder over `alaDb`. -/
def alaBuilder : TopologyBuilder := TopologyBuilder.default alaDb

/-- An N-terminal standard amino-acid residue with the given atoms. -/
def mkAlaResidue (atoms : List Atom) : Residue :=
  ⟨1, "ALA", .Standard, .NTerminal, some .protein, atoms⟩

/-- N-terminal alanine lacking `H1` (all backbone atoms present). -/
def alaNoH1 : Structure :=
  ⟨[⟨"A", [mkAlaResidue
    [⟨"N", .N, ⟨0, 0, 0⟩⟩, ⟨"CA", .C, ⟨1, 0, 0⟩⟩,
     ⟨"C", .C, ⟨2, 0, 0⟩⟩, ⟨"O", .O, ⟨3, 0, 0⟩⟩]]⟩]⟩

/-- The same residue lacking its backbone `N`. -/
def alaNoN : Structure :=
  ⟨[⟨"A", [mkAlaResidue
    [⟨"CA", .C, ⟨1, 0, 0⟩⟩, ⟨"C", .C, ⟨2, 0, 0⟩⟩, ⟨"O", .O, ⟨3, 0, 0⟩⟩]]⟩]⟩

/-- A Hetero residue named `XYZ` with no matching user template. -/
def xyzStructure : Structure :=
  ⟨[⟨"A", [⟨1, "XYZ", .Hetero, .NonePos, none, [⟨"C1", .C, ⟨0, 0, 0⟩⟩]⟩]⟩]⟩

/-- Default builder with no user templates. -/
def xyzBuilder : TopologyBuilder := TopologyBuilder.default emptyDb

/-- Modelled from the spec: an internal template for the cystine variant
`CYX` (the built-in database files are missing); the spec fixes no content
for it, and the empty bond/hydrogen lists isolate the disulfide phase the
claim is about. -/
def cyxTemplate : InternalTemplate := ⟨"CYX", [], []⟩

/-- Registry holding only `cyxTemplate`. -/
def cyxDb : String → Option InternalTemplate :=
  fun n => if n = "CYX" then some cyxTemplate else none

/-- A `CYX` residue with a single `SG` sulfur at `(x, 0, 0)`. -/
def mkCyx (id : Int) (x : ℚ) : Residue :=
  ⟨id, "CYX", .Standard, .NonePos, some .protein, [⟨"SG", .S, ⟨x, 0, 0⟩⟩]⟩

/-- Three `CYX` residues whose `SG`–`SG` distances are 2, 4 and 2 Å: the
two adjacent pairs are within the 2.2 Å disulfide cutoff, the outer pair
is not. -/
def cyxStructure : Structure := ⟨[⟨"A", [mkCyx 1 0, mkCyx 2 2, mkCyx 3 4]⟩]⟩

/-- Default builder over `cyxDb`. -/
def cyxBuilder : TopologyBuilder := TopologyBuilder.default cyxDb

/-- Registry giving the two peptide test residues empty templates. -/
def pepDb : String → Option InternalTemplate :=
  fun n => if n = "R1" ∨ n = "R2" then some ⟨n, [], []⟩ else none

/-- A one-atom standard protein residue. -/
def mkPepRes (id : Int) (name atomName : String) (x : ℚ) : Residue :=
  ⟨id, name, .Standard, .Internal, some .protein, [⟨atomName, .C, ⟨x, 0, 0⟩⟩]⟩

/-- Consecutive standard protein residues with `C`(1)–`N`(2) at 1.33 Å. -/
def pepClose : Structure :=
  ⟨[⟨"A", [mkPepRes 1 "R1" "C" 0, mkPepRes 2 "R2" "N" (133 / 100)]⟩]⟩

/-- The same pair with `C`(1)–`N`(2) at 5.0 Å. -/
def pepFar : Structure :=
  ⟨[⟨"A", [mkPepRes 1 "R1" "C" 0, mkPepRes 2 "R2" "N" 5]⟩]⟩

/-- Default builder over `pepDb`. -/
def pepBuilder : TopologyBuilder := TopologyBuilder.default pepDb

/-- A Water-category residue (category neither Standard, Hetero nor Ion). -/
def waterResidue : Residue :=
  ⟨1, "HOH", .Water, .NonePos, some .water, [⟨"O", .O, ⟨0, 0, 0⟩⟩]⟩

/-- Two stored items on the x axis, for the concrete grid instances. -/
def gridItems : List (Point × ℕ) := [(⟨0, 0, 0⟩, 10), (⟨1, 0, 0⟩, 11)]

/-- The grid built from `gridItems` with cell size 1. -/
def gridG : Grid ℕ :=
  ⟨1, ⟨0, 0, 0⟩, (2, 1, 1), [[0], [1]], gridItems⟩

/-- Componentwise order on points. -/
def pointLE (p q : Point) : Prop := p.x ≤ q.x ∧ p.y ≤ q.y ∧ p.z ≤ q.z

/-! Theorems. Batteries marks the ℚ arithmetic operations irreducible,
which blocks `decide`/`rfl` on concrete rational computations at
elaboration time (the kernel is unaffected); within the theorems section
they are made semireducible again. -/

set_option allowUnsafeReducibility true

section RatReducibility

attribute [local semireducible] Rat.mul Rat.add Rat.sub Rat.inv Rat.ofScientific

/-- The canonical constructor orders its indices. -/
theorem bond_new_le (i j : ℕ) (o : BondOrder) :
    (Bond.new i j o).a1_idx ≤ (Bond.new i j o).a2_idx := by
  unfold Bond.new
  split <;> simp <;> omega

/-- A constructed bond is one of the two index orientations. -/
theorem bond_new_eq_or (i j : ℕ) (o : BondOrder) :
    Bond.new i j o = ⟨i, j, o⟩ ∨ Bond.new i j o = ⟨j, i, o⟩ := by
  unfold Bond.new
  split
  · exact .inl rfl
  · exact .inr rfl

/-- C8: for all atom indices and every bond order, `Bond::new` yields
`a1_idx ≤ a2_idx`, and `Bond::new(5, 2, order)` equals
`Bond::new(2, 5, order)` as values. -/
theorem claim_c8_bond_canonicalization :
    (∀ (idx1 idx2 : ℕ) (order : BondOrder),
      (Bond.new idx1 idx2 order).a1_idx ≤ (Bond.new idx1 idx2 order).a2_idx) ∧
    (∀ order : BondOrder, Bond.new 5 2 order = Bond.new 2 5 order) := by
  refine ⟨bond_new_le, fun o => ?_⟩
  simp [Bond.new]

/-- C3 counterexample: a builder configuration (a user template repeating
the unordered pair `A`–`B`) for which `build` returns `Ok` with the same
`Bond` value occurring twice in the bond list. -/
theorem claim_c3_counterexample :
    dupBuilder.build dupStructure =
      .ok ⟨dupStructure, [Bond.new 0 1 .Single, Bond.new 0 1 .Single]⟩ ∧
    ¬ ([Bond.new 0 1 .Single, Bond.new 0 1 .Single] : List Bond).Nodup := by
  constructor
  · rfl
  · decide

/-- Appending preserves canonicality. -/
theorem canonical_append {l1 l2 : List Bond}
    (h1 : CanonicalBonds l1) (h2 : CanonicalBonds l2) :
    CanonicalBonds (l1 ++ l2) := by
  intro bd hbd
  rcases List.mem_append.mp hbd with h | h
  exacts [h1 bd h, h2 bd h]

/-- Pushing a constructed bond preserves canonicality. -/
theorem canonical_push {l : List Bond} (h : CanonicalBonds l)
    (i j : ℕ) (o : BondOrder) : CanonicalBonds (l ++ [Bond.new i j o]) := by
  refine canonical_append h ?_
  intro bd hbd
  rw [List.mem_singleton] at hbd
  subst hbd
  exact bond_new_le i j o

/-- `try_add_bond` preserves canonicality of the bond list. -/
theorem try_add_bond_canonical {b : TopologyBuilder} {r : Residue}
    {off : ℕ} {n1 n2 : String} {o : BondOrder} {bonds bonds' : List Bond}
    (h : b.try_add_bond r off n1 n2 o bonds = .ok bonds')
    (hc : CanonicalBonds bonds) : CanonicalBonds bonds' := by
  unfold TopologyBuilder.try_add_bond at h
  split at h
  · cases h; exact canonical_push hc _ _ _
  · split at h
    · cases h; exact hc
    · simp at h
  · split at h
    · cases h; exact hc
    · simp at h
  · split at h
    · cases h; exact hc
    · split at h
      · cases h; exact hc
      · simp at h

/-- `nTerminalHBond` preserves canonicality. -/
theorem nTerminalHBond_canonical {r : Residue} {off : ℕ} {hn : String}
    {bonds : List Bond} (hc : CanonicalBonds bonds) :
    CanonicalBonds (nTerminalHBond r off hn bonds) := by
  unfold nTerminalHBond
  split
  · split
    · exact canonical_push hc _ _ _
    · exact hc
  · exact hc

/-- `handle_terminal_intra_bonds` preserves canonicality. -/
theorem handle_terminal_canonical {b : TopologyBuilder} {r : Residue}
    {off : ℕ} {bonds : List Bond} (hc : CanonicalBonds bonds) :
    CanonicalBonds (b.handle_terminal_intra_bonds r off bonds) := by
  unfold TopologyBuilder.handle_terminal_intra_bonds
  have step1 : CanonicalBonds (if r.position = .NTerminal
      && (r.standard_name.any fun s => s.is_protein) then
        nTerminalHBond r off "H3" (nTerminalHBond r off "H2"
          (nTerminalHBond r off "H1" bonds))
      else bonds) := by
    split
    · exact nTerminalHBond_canonical (nTerminalHBond_canonical
        (nTerminalHBond_canonical hc))
    · exact hc
  generalize (if r.position = .NTerminal
      && (r.standard_name.any fun s => s.is_protein) then
        nTerminalHBond r off "H3" (nTerminalHBond r off "H2"
          (nTerminalHBond r off "H1" bonds))
      else bonds) = l1 at step1 ⊢
  have step2 : ∀ {l : List Bond}, CanonicalBonds l →
      CanonicalBonds (if r.position = .CTerminal
        && (r.standard_name.any fun s => s.is_protein) then
          match r.atomPosition "C" with
          | some c_idx =>
              match r.atomPosition "OXT" with
              | some oxt_idx =>
                  let bonds := l ++ [Bond.new (off + c_idx) (off + oxt_idx) .Single]
                  let bonds :=
                    match r.atomPosition "HXT" with
                    | some h_idx => bonds ++ [Bond.new (off + oxt_idx) (off + h_idx) .Single]
                    | none => bonds
                  match r.atomPosition "HOXT" with
                  | some h_idx => bonds ++ [Bond.new (off + oxt_idx) (off + h_idx) .Single]
                  | none => bonds
              | none => l
          | none => l
        else l) := by
    intro l hl
    split
    · split
      · split
        · split <;> split <;>
            first
              | exact canonical_push (canonical_push (canonical_push hl _ _ _) _ _ _) _ _ _
              | exact canonical_push (canonical_push hl _ _ _) _ _ _
              | exact canonical_push hl _ _ _
        · exact hl
      · exact hl
    · exact hl
  have step3 : ∀ {l : List Bond}, CanonicalBonds l →
      CanonicalBonds (if r.position = .FivePrime
        && (r.standard_name.any fun s => s.is_nucleic) then
          match r.atomPosition "HO5'", r.atomPosition "O5'" with
          | some h_idx, some o_idx =>
              l ++ [Bond.new (off + h_idx) (off + o_idx) .Single]
          | _, _ => l
        else l) := by
    intro l hl
    split
    · split
      · exact canonical_push hl _ _ _
      · exact hl
    · exact hl
  have step4 : ∀ {l : List Bond}, CanonicalBonds l →
      CanonicalBonds (if r.position = .ThreePrime
        && (r.standard_name.any fun s => s.is_nucleic) then
          match r.atomPosition "HO3'", r.atomPosition "O3'" with
          | some h_idx, some o_idx =>
              l ++ [Bond.new (off + h_idx) (off + o_idx) .Single]
          | _, _ => l
        else l) := by
    intro l hl
    split
    · split
      · exact canonical_push hl _ _ _
      · exact hl
    · exact hl
  exact step4 (step3 (step2 step1))

/-- The template-bond fold preserves canonicality. -/
theorem addTemplateBonds_canonical {b : TopologyBuilder} {r : Residue} {off : ℕ} :
    ∀ {tb : List (String × String × BondOrder)} {bonds bonds' : List Bond},
    b.addTemplateBonds r off tb bonds = .ok bonds' →
    CanonicalBonds bonds → CanonicalBonds bonds'
  | [], _, _, h, hc => by cases h; exact hc
  | (a1, a2, o) :: rest, bonds, bonds', h, hc => by
      unfold TopologyBuilder.addTemplateBonds at h
      split at h
      · simp at h
      · next mid hmid =>
          exact addTemplateBonds_canonical h (try_add_bond_canonical hmid hc)

/-- The template-hydrogen fold preserves canonicality. -/
theorem addTemplateHydrogens_canonical {b : TopologyBuilder} {r : Residue} {off : ℕ} :
    ∀ {th : List (String × List String)} {bonds bonds' : List Bond},
    b.addTemplateHydrogens r off th bonds = .ok bonds' →
    CanonicalBonds bonds → CanonicalBonds bonds'
  | [], _, _, h, hc => by cases h; exact hc
  | (hn, anchors) :: rest, bonds, bonds', h, hc => by
      unfold TopologyBuilder.addTemplateHydrogens at h
      split at h
      · simp at h
      · next mid hmid =>
          refine addTemplateHydrogens_canonical h ?_
          split at hmid
          · split at hmid
            · exact try_add_bond_canonical hmid hc
            · cases hmid; exact hc
          · cases hmid; exact hc

/-- `processResidue` preserves canonicality. -/
theorem processResidue_canonical {b : TopologyBuilder} {r : Residue} {off : ℕ}
    {bonds bonds' : List Bond} (h : b.processResidue r off bonds = .ok bonds')
    (hc : CanonicalBonds bonds) : CanonicalBonds bonds' := by
  unfold TopologyBuilder.processResidue at h
  split at h
  · cases h; exact hc
  · split at h
    · split at h
      · simp at h
      · split at h
        · simp at h
        · split at h
          · simp at h
          · next hh =>
              cases h
              exact handle_terminal_canonical
                (addTemplateHydrogens_canonical hh
                  (addTemplateBonds_canonical (by assumption) hc))
    · split at h
      · split at h
        · simp at h
        · exact addTemplateBonds_canonical h hc
      · cases h; exact hc

/-- The per-chain intra loop preserves canonicality. -/
theorem intraChain_canonical {b : TopologyBuilder} :
    ∀ {rs : List Residue} {off off' : ℕ} {bonds bonds' : List Bond},
    b.intraChain rs off bonds = .ok (off', bonds') →
    CanonicalBonds bonds → CanonicalBonds bonds'
  | [], _, _, _, _, h, hc => by cases h; exact hc
  | r :: rest, off, off', bonds, bonds', h, hc => by
      unfold TopologyBuilder.intraChain at h
      split at h
      · simp at h
      · next mid hmid =>
          exact intraChain_canonical h (processResidue_canonical hmid hc)

/-- The chain loop of the intra phase preserves canonicality. -/
theorem intraChains_canonical {b : TopologyBuilder} :
    ∀ {cs : List Chain} {off off' : ℕ} {bonds bonds' : List Bond},
    b.intraChains cs off bonds = .ok (off', bonds') →
    CanonicalBonds bonds → CanonicalBonds bonds'
  | [], _, _, _, _, h, hc => by cases h; exact hc
  | c :: rest, off, off', bonds, bonds', h, hc => by
      unfold TopologyBuilder.intraChains at h
      split at h
      · simp at h
      · next o2 b2 hmid =>
          exact intraChains_canonical h (intraChain_canonical hmid hc)

/-- The whole intra phase preserves canonicality. -/
theorem build_intra_residue_canonical {b : TopologyBuilder} {s : Structure}
    {bonds bonds' : List Bond} (h : b.build_intra_residue s bonds = .ok bonds')
    (hc : CanonicalBonds bonds) : CanonicalBonds bonds' := by
  unfold TopologyBuilder.build_intra_residue at h
  cases hm : b.intraChains s.chains 0 bonds with
  | error e => rw [hm] at h; simp [Except.map] at h
  | ok p =>
      rw [hm] at h
      simp [Except.map] at h
      subst h
      exact intraChains_canonical hm hc

/-- `connect_atoms_if_close` preserves canonicality. -/
theorem connect_canonical {b : TopologyBuilder} {r1 r2 : Residue}
    {o1 o2 : ℕ} {n1 n2 : String} {cut : ℚ} {o : BondOrder}
    {bonds : List Bond} (hc : CanonicalBonds bonds) :
    CanonicalBonds (b.connect_atoms_if_close r1 o1 n1 r2 o2 n2 cut o bonds) := by
  unfold TopologyBuilder.connect_atoms_if_close
  split
  · split
    · exact canonical_push hc _ _ _
    · exact hc
  · exact hc

/-- The consecutive-pair loop preserves canonicality. -/
theorem interChainPairs_canonical {b : TopologyBuilder} :
    ∀ {rs : List Residue} {offs : List ℕ} {bonds : List Bond},
    CanonicalBonds bonds → CanonicalBonds (b.interChainPairs rs offs bonds)
  | [], _, _, hc => hc
  | [_], _, _, hc => hc
  | _ :: _ :: _, [], _, hc => hc
  | _ :: _ :: _, [_], _, hc => hc
  | curr :: next :: rres, o1 :: o2 :: roffs, bonds, hc => by
      show CanonicalBonds (b.interChainPairs (next :: rres) (o2 :: roffs) _)
      refine interChainPairs_canonical ?_
      split
      · split
        · split
          · exact connect_canonical hc
          · split
            · exact connect_canonical hc
            · exact hc
        · exact hc
      · exact hc

/-- The disulfide all-pairs loop yields only canonical bonds. -/
theorem disulfidePairs_canonical (cut : ℚ) :
    ∀ (l : List (ℕ × Point)), CanonicalBonds (disulfidePairs cut l)
  | [] => by intro bd hbd; simp [disulfidePairs] at hbd
  | (i1, p1) :: rest => by
      intro bd hbd
      unfold disulfidePairs at hbd
      rcases List.mem_append.mp hbd with h | h
      · rcases List.mem_map.mp h with ⟨q, _, rfl⟩
        exact bond_new_le _ _ _
      · exact disulfidePairs_canonical cut rest bd h

/-- The inter phase preserves canonicality. -/
theorem build_inter_residue_canonical {b : TopologyBuilder} {s : Structure}
    {bonds : List Bond} (hc : CanonicalBonds bonds) :
    CanonicalBonds (b.build_inter_residue s bonds) := by
  unfold TopologyBuilder.build_inter_residue
  refine canonical_append ?_ (disulfidePairs_canonical _ _)
  generalize (s.chains.zip (residueOffsets s)) = ps
  induction ps generalizing bonds with
  | nil => exact hc
  | cons p rest ih => exact ih (interChainPairs_canonical hc)

/-- C3 amended: every bond of a successfully built topology is canonical
(`a1_idx ≤ a2_idx`); full list-level deduplication does not hold (see the
counterexample). -/
theorem claim_c3_amended_canonical (b : TopologyBuilder) (s : Structure)
    (t : Topology) (h : b.build s = .ok t) :
    ∀ bd ∈ t.bonds, bd.a1_idx ≤ bd.a2_idx := by
  unfold TopologyBuilder.build at h
  split at h
  · simp at h
  · next bonds0 h0 =>
      cases h
      exact build_inter_residue_canonical
        (build_intra_residue_canonical h0 (by intro bd hbd; simp at hbd))

/-- C3 amended, witnessed at a concrete successful build and bond. -/
theorem claim_c3_amended_canonical_witness :
    (Bond.new 0 1 BondOrder.Single).a1_idx ≤ (Bond.new 0 1 BondOrder.Single).a2_idx :=
  claim_c3_amended_canonical dupBuilder dupStructure
    ⟨dupStructure, [Bond.new 0 1 .Single, Bond.new 0 1 .Single]⟩ rfl
    (Bond.new 0 1 .Single) (by decide)

/-- A Hetero residue processed successfully has a user template. -/
theorem processResidue_hetero_ok {b : TopologyBuilder} {r : Residue}
    {off : ℕ} {bonds bonds' : List Bond}
    (h : b.processResidue r off bonds = .ok bonds')
    (hcat : r.category = .Hetero) :
    lookupTemplate b.user_templates r.name ≠ none := by
  intro hnone
  unfold TopologyBuilder.processResidue at h
  rw [hcat] at h
  simp [hnone] at h

/-- Every Hetero residue of a successfully processed chain is templated. -/
theorem intraChain_hetero_templated {b : TopologyBuilder} :
    ∀ {rs : List Residue} {off off' : ℕ} {bonds bonds' : List Bond},
    b.intraChain rs off bonds = .ok (off', bonds') →
    ∀ r ∈ rs, r.category = .Hetero → lookupTemplate b.user_templates r.name ≠ none
  | [], _, _, _, _, _, r, hr, _ => by simp at hr
  | r0 :: rest, off, off', bonds, bonds', h, r, hr, hcat => by
      unfold TopologyBuilder.intraChain at h
      split at h
      · simp at h
      · next mid hmid =>
          rcases List.mem_cons.mp hr with rfl | hr
          · exact processResidue_hetero_ok hmid hcat
          · exact intraChain_hetero_templated h r hr hcat

/-- Every Hetero residue of a successfully processed structure is templated. -/
theorem intraChains_hetero_templated {b : TopologyBuilder} :
    ∀ {cs : List Chain} {off off' : ℕ} {bonds bonds' : List Bond},
    b.intraChains cs off bonds = .ok (off', bonds') →
    ∀ c ∈ cs, ∀ r ∈ c.residues, r.category = .Hetero →
    lookupTemplate b.user_templates r.name ≠ none
  | [], _, _, _, _, _, c, hc, _, _, _ => by simp at hc
  | c0 :: rest, off, off', bonds, bonds', h, c, hc, r, hr, hcat => by
      unfold TopologyBuilder.intraChains at h
      split at h
      · simp at h
      · next o2 b2 hmid =>
          rcases List.mem_cons.mp hc with rfl | hc
          · exact intraChain_hetero_templated hmid r hr hcat
          · exact intraChains_hetero_templated h c hc r hr hcat

/-- C7: a Hetero residue with no matching user template makes `build`
fail (no partial topology), and the one-residue `XYZ` instance fails with
exactly `MissingUserTemplate { res_name: "XYZ" }`. -/
theorem claim_c7_missing_user_template :
    (∀ (b : TopologyBuilder) (s : Structure) (c : Chain) (r : Residue),
      c ∈ s.chains → r ∈ c.residues → r.category = .Hetero →
      lookupTemplate b.user_templates r.name = none →
      ∃ e : Error, b.build s = .error e) ∧
    xyzBuilder.build xyzStructure = .error (.MissingUserTemplate "XYZ") := by
  constructor
  · intro b s c r hc hr hcat hnone
    cases hb : b.build s with
    | error e => exact ⟨e, rfl⟩
    | ok t =>
        exfalso
        unfold TopologyBuilder.build at hb
        split at hb
        · simp at hb
        · next bonds0 h0 =>
            unfold TopologyBuilder.build_intra_residue at h0
            cases hm : b.intraChains s.chains 0 [] with
            | error e => rw [hm] at h0; simp [Except.map] at h0
            | ok p =>
                exact intraChains_hetero_templated hm c hc r hr hcat hnone
  · rfl

/-- C7 witness: the general part applied to the concrete `XYZ` structure. -/
theorem claim_c7_witness :
    ∃ e : Error, xyzBuilder.build xyzStructure = .error e :=
  claim_c7_missing_user_template.1 xyzBuilder xyzStructure
    ⟨"A", [⟨1, "XYZ", .Hetero, .NonePos, none, [⟨"C1", .C, ⟨0, 0, 0⟩⟩]⟩]⟩
    ⟨1, "XYZ", .Hetero, .NonePos, none, [⟨"C1", .C, ⟨0, 0, 0⟩⟩]⟩
    (by decide) (by decide) rfl rfl

/-- C10: a residue whose category is neither Standard, Hetero nor Ion
contributes no intra-residue bonds and no error, and still advances the
running flat-atom-index offset by its atom count. -/
theorem claim_c10_other_categories (b : TopologyBuilder) (r : Residue)
    (off : ℕ) (bonds : List Bond)
    (h1 : r.category ≠ .Standard) (h2 : r.category ≠ .Hetero)
    (h3 : r.category ≠ .Ion) :
    b.processResidue r off bonds = .ok bonds ∧
    ∀ rs : List Residue,
      b.intraChain (r :: rs) off bonds = b.intraChain rs (off + r.atomCount) bonds := by
  have hp : b.processResidue r off bonds = .ok bonds := by
    unfold TopologyBuilder.processResidue
    rw [if_neg h3, if_neg h1, if_neg h2]
  refine ⟨hp, fun rs => ?_⟩
  conv_lhs => rw [TopologyBuilder.intraChain]
  rw [hp]

/-- C10 witness: applied to a concrete Water residue. -/
theorem claim_c10_witness :
    xyzBuilder.processResidue waterResidue 0 [] = .ok [] ∧
    xyzBuilder.intraChain [waterResidue] 0 [] =
      xyzBuilder.intraChain [] (0 + waterResidue.atomCount) [] := by
  have h := claim_c10_other_categories xyzBuilder waterResidue 0 []
    (by decide) (by decide) (by decide)
  exact ⟨h.1, h.2 []⟩

/-- `try_add_bond` with the first named atom missing: the bond is silently
skipped exactly when the missing atom is optional for the residue's
terminal position and polymer class (or the second atom is also missing
and optional); otherwise the typed `TopologyAtomMissing` error carries the
residue name, residue id and the missing atom's name. -/
theorem try_add_bond_missing_first {b : TopologyBuilder} {r : Residue}
    {off : ℕ} {n1 n2 : String} {o : BondOrder} {bonds : List Bond}
    (hm : r.atomPosition n1 = none) :
    (b.try_add_bond r off n1 n2 o bonds = .ok bonds ↔
      (b.is_optional_terminal_atom r n1 = true ∨
       (r.atomPosition n2 = none ∧ b.is_optional_terminal_atom r n2 = true))) ∧
    (b.is_optional_terminal_atom r n1 = false →
     ¬(r.atomPosition n2 = none ∧ b.is_optional_terminal_atom r n2 = true) →
     b.try_add_bond r off n1 n2 o bonds =
       .error (.TopologyAtomMissing r.name r.id n1)) := by
  unfold TopologyBuilder.try_add_bond
  rw [hm]
  cases hp2 : r.atomPosition n2 with
  | none =>
      by_cases h1 : b.is_optional_terminal_atom r n1 = true <;>
        by_cases h2 : b.is_optional_terminal_atom r n2 = true <;>
        simp [h1, h2]
  | some i2 =>
      by_cases h1 : b.is_optional_terminal_atom r n1 = true <;> simp [h1]

/-- `try_add_bond` with only the second named atom missing: skipped
exactly when that atom is optional, else the typed error names it. -/
theorem try_add_bond_missing_second {b : TopologyBuilder} {r : Residue}
    {off : ℕ} {n1 n2 : String} {o : BondOrder} {bonds : List Bond} {i1 : ℕ}
    (hp1 : r.atomPosition n1 = some i1) (hm : r.atomPosition n2 = none) :
    (b.try_add_bond r off n1 n2 o bonds = .ok bonds ↔
      b.is_optional_terminal_atom r n2 = true) ∧
    (b.is_optional_terminal_atom r n2 = false →
     b.try_add_bond r off n1 n2 o bonds =
       .error (.TopologyAtomMissing r.name r.id n2)) := by
  unfold TopologyBuilder.try_add_bond
  rw [hp1, hm]
  by_cases h2 : b.is_optional_terminal_atom r n2 = true <;> simp [h2]

/-- C2: the N-terminal standard amino-acid residue lacking `H1` builds
without `TopologyAtomMissing`; the same residue lacking its backbone `N`
(referenced by a non-optional template bond) fails with the typed error
carrying residue name, id and atom name `N`; and in general a missing
template-bond atom is an error unless it is optional for the residue's
terminal position and polymer class, in which case the bond is skipped. -/
theorem claim_c2_optional_terminal_atoms :
    (alaBuilder.build alaNoH1 = .ok ⟨alaNoH1,
      [Bond.new 0 1 .Single, Bond.new 1 2 .Single, Bond.new 2 3 .Single]⟩) ∧
    (alaBuilder.build alaNoN = .error (.TopologyAtomMissing "ALA" 1 "N")) ∧
    (∀ (b : TopologyBuilder) (r : Residue) (off : ℕ) (n1 n2 : String)
       (o : BondOrder) (bonds : List Bond),
      r.atomPosition n1 = none →
      ((b.try_add_bond r off n1 n2 o bonds = .ok bonds ↔
        (b.is_optional_terminal_atom r n1 = true ∨
         (r.atomPosition n2 = none ∧ b.is_optional_terminal_atom r n2 = true))) ∧
       (b.is_optional_terminal_atom r n1 = false →
        ¬(r.atomPosition n2 = none ∧ b.is_optional_terminal_atom r n2 = true) →
        b.try_add_bond r off n1 n2 o bonds =
          .error (.TopologyAtomMissing r.name r.id n1)))) ∧
    (∀ (b : TopologyBuilder) (r : Residue) (off : ℕ) (n1 n2 : String)
       (o : BondOrder) (bonds : List Bond) (i1 : ℕ),
      r.atomPosition n1 = some i1 → r.atomPosition n2 = none →
      ((b.try_add_bond r off n1 n2 o bonds = .ok bonds ↔
        b.is_optional_terminal_atom r n2 = true) ∧
       (b.is_optional_terminal_atom r n2 = false →
        b.try_add_bond r off n1 n2 o bonds =
          .error (.TopologyAtomMissing r.name r.id n2)))) := by
  refine ⟨rfl, rfl, ?_, ?_⟩
  · intro b r off n1 n2 o bonds hm
    exact try_add_bond_missing_first hm
  · intro b r off n1 n2 o bonds i1 hp1 hm
    exact try_add_bond_missing_second hp1 hm

/-- C2 witness: the general skip/error rule applied to the concrete
N-terminal residue missing `N` (bond `N`–`CA` of the template). -/
theorem claim_c2_witness :
    alaBuilder.try_add_bond (mkAlaResidue
      [⟨"CA", .C, ⟨1, 0, 0⟩⟩, ⟨"C", .C, ⟨2, 0, 0⟩⟩, ⟨"O", .O, ⟨3, 0, 0⟩⟩])
      0 "N" "CA" .Single [] =
      .error (.TopologyAtomMissing "ALA" 1 "N") := by
  have h := (claim_c2_optional_terminal_atoms.2.2.1 alaBuilder
    (mkAlaResidue
      [⟨"CA", .C, ⟨1, 0, 0⟩⟩, ⟨"C", .C, ⟨2, 0, 0⟩⟩, ⟨"O", .O, ⟨3, 0, 0⟩⟩])
    0 "N" "CA" .Single [] (by decide)).2 (by decide) (by decide)
  exact h

/-- `connect_atoms_if_close` appends the geometry-gated bond when both
named atoms resolve, and leaves the list unchanged otherwise. -/
theorem connect_atoms_characterization (b : TopologyBuilder) (r1 : Residue)
    (o1 : ℕ) (n1 : String) (r2 : Residue) (o2 : ℕ) (n2 : String)
    (cut : ℚ) (ord : BondOrder) (bonds : List Bond) :
    (∀ i1 a1 i2 a2, r1.findAtom n1 = some (i1, a1) →
      r2.findAtom n2 = some (i2, a2) →
      b.connect_atoms_if_close r1 o1 n1 r2 o2 n2 cut ord bonds =
        (if distSq a1.pos a2.pos ≤ cut * cut
         then bonds ++ [Bond.new (o1 + i1) (o2 + i2) ord] else bonds)) ∧
    ((r1.findAtom n1 = none ∨ r2.findAtom n2 = none) →
      b.connect_atoms_if_close r1 o1 n1 r2 o2 n2 cut ord bonds = bonds) := by
  constructor
  · intro i1 a1 i2 a2 h1 h2
    unfold TopologyBuilder.connect_atoms_if_close
    rw [h1, h2]
  · intro hnone
    unfold TopologyBuilder.connect_atoms_if_close
    rcases hnone with h | h
    · rw [h]
    · rw [h]
      cases hf : r1.findAtom n1 with
      | none => rfl
      | some v => obtain ⟨i, a⟩ := v; rfl

/-- C6: the consecutive-pair bond is geometry-gated — appended exactly
when both named atoms exist and their distance is within the cutoff,
omitted without error otherwise; concretely, `C`–`N` at 1.33 Å yields the
Single bond under the default 1.5 Å cutoff and at 5.0 Å yields nothing. -/
theorem claim_c6_peptide_bonding :
    (∀ (b : TopologyBuilder) (r1 : Residue) (o1 : ℕ) (r2 : Residue) (o2 : ℕ)
       (cut : ℚ) (ord : BondOrder) (bonds : List Bond),
      (∀ i1 a1 i2 a2, r1.findAtom "C" = some (i1, a1) →
        r2.findAtom "N" = some (i2, a2) →
        b.connect_atoms_if_close r1 o1 "C" r2 o2 "N" cut ord bonds =
          (if distSq a1.pos a2.pos ≤ cut * cut
           then bonds ++ [Bond.new (o1 + i1) (o2 + i2) ord] else bonds)) ∧
      ((r1.findAtom "C" = none ∨ r2.findAtom "N" = none) →
        b.connect_atoms_if_close r1 o1 "C" r2 o2 "N" cut ord bonds = bonds)) ∧
    (pepBuilder.build pepClose = .ok ⟨pepClose, [Bond.new 0 1 .Single]⟩) ∧
    (pepBuilder.build pepFar = .ok ⟨pepFar, []⟩) := by
  refine ⟨?_, rfl, rfl⟩
  intro b r1 o1 r2 o2 cut ord bonds
  exact connect_atoms_characterization b r1 o1 "C" r2 o2 "N" cut ord bonds

/-- C6 witness: the gating rule applied to the concrete 1.33 Å pair. -/
theorem claim_c6_witness :
    pepBuilder.connect_atoms_if_close (mkPepRes 1 "R1" "C" 0) 0 "C"
      (mkPepRes 2 "R2" "N" (133 / 100)) 1 "N"
      pepBuilder.peptide_bond_cutoff .Single [] =
      (if distSq (⟨0, 0, 0⟩ : Point) ⟨133 / 100, 0, 0⟩ ≤
          pepBuilder.peptide_bond_cutoff * pepBuilder.peptide_bond_cutoff
       then ([] : List Bond) ++ [Bond.new (0 + 0) (1 + 0) .Single] else []) :=
  (claim_c6_peptide_bonding.1 pepBuilder (mkPepRes 1 "R1" "C" 0) 0
    (mkPepRes 2 "R2" "N" (133 / 100)) 1 pepBuilder.peptide_bond_cutoff
    .Single []).1 0 ⟨"C", .C, ⟨0, 0, 0⟩⟩ 0 ⟨"N", .C, ⟨133 / 100, 0, 0⟩⟩
    (by decide) (by decide)

/-- The sulfur collection of one chain holds exactly the `SG` atoms of
its residues named `CYX` or `CYM`, at their flat indices. -/
theorem sulfurAtomsChain_mem :
    ∀ (rs : List Residue) (offs : List ℕ) (q : ℕ × Point),
    q ∈ sulfurAtomsChain rs offs ↔
      ∃ pr ∈ rs.zip offs, (pr.1.name = "CYX" ∨ pr.1.name = "CYM") ∧
        ∃ ia, pr.1.findAtom "SG" = some ia ∧ q = (pr.2 + ia.1, ia.2.pos)
  | [], offs, q => by simp [sulfurAtomsChain]
  | r :: rs, [], q => by simp [sulfurAtomsChain]
  | r :: rs, off :: offs, q => by
      rw [List.zip_cons_cons]
      constructor
      · intro hq
        unfold sulfurAtomsChain at hq
        rcases List.mem_append.mp hq with h | h
        · refine ⟨(r, off), List.mem_cons_self _ _, ?_⟩
          split at h
          · next hname =>
              split at h
              · next i a hia =>
                  rw [List.mem_singleton] at h
                  refine ⟨?_, (i, a), hia, ?_⟩
                  · simpa using hname
                  · simpa using h
              · simp at h
          · simp at h
        · rcases (sulfurAtomsChain_mem rs offs q).mp h with ⟨pr, hpr, hrest⟩
          exact ⟨pr, List.mem_cons_of_mem _ hpr, hrest⟩
      · rintro ⟨pr, hpr, hname, ia, hia, rfl⟩
        unfold sulfurAtomsChain
        rcases List.mem_cons.mp hpr with rfl | hpr
        · refine List.mem_append.mpr (.inl ?_)
          have hia2 : r.findAtom "SG" = some ia := hia
          have hname2 : r.name = "CYX" ∨ r.name = "CYM" := hname
          have hn : (decide (r.name = "CYX") || decide (r.name = "CYM")) = true := by
            rcases hname2 with h | h <;> simp [h]
          rw [if_pos hn, hia2]
          simp
        · exact List.mem_append.mpr
            (.inr ((sulfurAtomsChain_mem rs offs _).mpr ⟨pr, hpr, hname, ia, hia, rfl⟩))

/-- The disulfide all-pairs loop emits exactly one Single bond for every
ordered-by-position pair of collected sulfurs within the squared cutoff. -/
theorem disulfidePairs_mem (cut : ℚ) :
    ∀ (l : List (ℕ × Point)) (bd : Bond),
    bd ∈ disulfidePairs cut l ↔
      ∃ p q : ℕ × Point, List.Sublist [p, q] l ∧ distSq p.2 q.2 ≤ cut ∧
        bd = Bond.new p.1 q.1 .Single
  | [], bd => by
      simp [disulfidePairs]
  | (i1, p1) :: rest, bd => by
      unfold disulfidePairs
      constructor
      · intro hbd
        rcases List.mem_append.mp hbd with h | h
        · rcases List.mem_map.mp h with ⟨q, hq, rfl⟩
          rcases List.mem_filter.mp hq with ⟨hqm, hdist⟩
          refine ⟨(i1, p1), q, ?_, by simpa using hdist, rfl⟩
          exact List.cons_sublist_cons.mpr (List.singleton_sublist.mpr hqm)
        · rcases (disulfidePairs_mem cut rest bd).mp h with ⟨p, q, hsub, hd, rfl⟩
          exact ⟨p, q, hsub.cons _, hd, rfl⟩
      · rintro ⟨p, q, hsub, hd, rfl⟩
        rcases List.sublist_cons_iff.mp hsub with h | ⟨r', hr', hsub'⟩
        · exact List.mem_append.mpr
            (.inr ((disulfidePairs_mem cut rest _).mpr ⟨p, q, h, hd, rfl⟩))
        · cases hr'
          refine List.mem_append.mpr (.inl ?_)
          refine List.mem_map.mpr ⟨q, ?_, rfl⟩
          refine List.mem_filter.mpr ⟨List.singleton_sublist.mp hsub', by simpa using hd⟩

/-- C5: the disulfide phase collects the `SG` atoms of exactly the
residues named `CYX` or `CYM` and emits one Single bond per sulfur pair
within the cutoff; three such residues at pairwise distances 2 Å, 2 Å and
4 Å (the spec's 2/2/6 triple violates the triangle inequality, so the
realizable variant keeps the two close pairs and one far pair) yield
exactly the two close-pair bonds, none duplicated. -/
theorem claim_c5_disulfide_bridges :
    (∀ (rs : List Residue) (offs : List ℕ) (q : ℕ × Point),
      q ∈ sulfurAtomsChain rs offs ↔
        ∃ pr ∈ rs.zip offs, (pr.1.name = "CYX" ∨ pr.1.name = "CYM") ∧
          ∃ ia, pr.1.findAtom "SG" = some ia ∧ q = (pr.2 + ia.1, ia.2.pos)) ∧
    (∀ (cut : ℚ) (l : List (ℕ × Point)) (bd : Bond),
      bd ∈ disulfidePairs cut l ↔
        ∃ p q : ℕ × Point, List.Sublist [p, q] l ∧ distSq p.2 q.2 ≤ cut ∧
          bd = Bond.new p.1 q.1 .Single) ∧
    (cyxBuilder.build cyxStructure =
      .ok ⟨cyxStructure, [Bond.new 0 1 .Single, Bond.new 1 2 .Single]⟩ ∧
     ([Bond.new 0 1 BondOrder.Single, Bond.new 1 2 BondOrder.Single]).Nodup) := by
  exact ⟨sulfurAtomsChain_mem, disulfidePairs_mem, rfl, by decide⟩

/-- An index found by the atom scan is below the start plus the list
length. -/
theorem findAtomAux_lt {n : String} :
    ∀ {k : ℕ} {atoms : List Atom} {i : ℕ} {a : Atom},
    findAtomAux n k atoms = some (i, a) → i < k + atoms.length
  | k, [], i, a, h => by simp [findAtomAux] at h
  | k, a0 :: rest, i, a, h => by
      unfold findAtomAux at h
      split at h
      · cases h; simp
      · have := findAtomAux_lt h
        simp at this ⊢
        omega

/-- A found atom's index is below the residue's atom count. -/
theorem findAtom_lt {r : Residue} {n : String} {i : ℕ} {a : Atom}
    (h : r.findAtom n = some (i, a)) : i < r.atomCount := by
  have := findAtomAux_lt h
  simpa [Residue.atomCount] using this

/-- A resolved atom position is below the residue's atom count. -/
theorem atomPosition_lt {r : Residue} {n : String} {i : ℕ}
    (h : r.atomPosition n = some i) : i < r.atomCount := by
  unfold Residue.atomPosition at h
  cases hf : r.findAtom n with
  | none => rw [hf] at h; simp at h
  | some ia =>
      rw [hf] at h
      simp at h
      obtain ⟨i0, a0⟩ := ia
      cases h
      exact findAtom_lt hf

/-- Appending preserves the index bound. -/
theorem bondsLT_append {N : ℕ} {l1 l2 : List Bond}
    (h1 : BondsLT N l1) (h2 : BondsLT N l2) : BondsLT N (l1 ++ l2) := by
  intro bd hbd
  rcases List.mem_append.mp hbd with h | h
  exacts [h1 bd h, h2 bd h]

/-- Pushing a bond between two in-range indices preserves the bound. -/
theorem bondsLT_push {N : ℕ} {l : List Bond} (h : BondsLT N l)
    {i j : ℕ} (hi : i < N) (hj : j < N) (o : BondOrder) :
    BondsLT N (l ++ [Bond.new i j o]) := by
  refine bondsLT_append h ?_
  intro bd hbd
  rw [List.mem_singleton] at hbd
  subst hbd
  rcases bond_new_eq_or i j o with h | h <;> rw [h] <;> exact ⟨by assumption, by assumption⟩

/-- `try_add_bond` keeps every index below any bound at least
`offset + atom_count`. -/
theorem try_add_bond_bounds {b : TopologyBuilder} {r : Residue}
    {off : ℕ} {n1 n2 : String} {o : BondOrder} {bonds bonds' : List Bond} {N : ℕ}
    (h : b.try_add_bond r off n1 n2 o bonds = .ok bonds')
    (hb : BondsLT N bonds) (hN : off + r.atomCount ≤ N) : BondsLT N bonds' := by
  unfold TopologyBuilder.try_add_bond at h
  split at h
  · next i1 i2 h1 h2 =>
      cases h
      exact bondsLT_push hb (by have := atomPosition_lt h1; omega)
        (by have := atomPosition_lt h2; omega) o
  · split at h
    · cases h; exact hb
    · simp at h
  · split at h
    · cases h; exact hb
    · simp at h
  · split at h
    · cases h; exact hb
    · split at h
      · cases h; exact hb
      · simp at h

/-- `nTerminalHBond` keeps indices bounded. -/
theorem nTerminalHBond_bounds {r : Residue} {off : ℕ} {hn : String}
    {bonds : List Bond} {N : ℕ} (hb : BondsLT N bonds)
    (hN : off + r.atomCount ≤ N) : BondsLT N (nTerminalHBond r off hn bonds) := by
  unfold nTerminalHBond
  split
  · split
    · next h1 h2 =>
        exact bondsLT_push hb (by have := atomPosition_lt h1; omega)
          (by have := atomPosition_lt h2; omega) _
    · exact hb
  · exact hb

/-- `handle_terminal_intra_bonds` keeps indices bounded. -/
theorem handle_terminal_bounds {b : TopologyBuilder} {r : Residue}
    {off : ℕ} {bonds : List Bond} {N : ℕ} (hb : BondsLT N bonds)
    (hN : off + r.atomCount ≤ N) :
    BondsLT N (b.handle_terminal_intra_bonds r off bonds) := by
  unfold TopologyBuilder.handle_terminal_intra_bonds
  have hpush : ∀ {l : List Bond} {i j : ℕ} {o : BondOrder},
      BondsLT N l → i < r.atomCount → j < r.atomCount →
      BondsLT N (l ++ [Bond.new (off + i) (off + j) o]) := by
    intro l i j o hl hi hj
    exact bondsLT_push hl (by omega) (by omega) o
  have step1 : BondsLT N (if r.position = .NTerminal
      && (r.standard_name.any fun s => s.is_protein) then
        nTerminalHBond r off "H3" (nTerminalHBond r off "H2"
          (nTerminalHBond r off "H1" bonds))
      else bonds) := by
    split
    · exact nTerminalHBond_bounds (nTerminalHBond_bounds
        (nTerminalHBond_bounds hb hN) hN) hN
    · exact hb
  generalize (if r.position = .NTerminal
      && (r.standard_name.any fun s => s.is_protein) then
        nTerminalHBond r off "H3" (nTerminalHBond r off "H2"
          (nTerminalHBond r off "H1" bonds))
      else bonds) = l1 at step1 ⊢
  have step2 : ∀ {l : List Bond}, BondsLT N l →
      BondsLT N (if r.position = .CTerminal
        && (r.standard_name.any fun s => s.is_protein) then
          match r.atomPosition "C" with
          | some c_idx =>
              match r.atomPosition "OXT" with
              | some oxt_idx =>
                  let bonds := l ++ [Bond.new (off + c_idx) (off + oxt_idx) .Single]
                  let bonds :=
                    match r.atomPosition "HXT" with
                    | some h_idx => bonds ++ [Bond.new (off + oxt_idx) (off + h_idx) .Single]
                    | none => bonds
                  match r.atomPosition "HOXT" with
                  | some h_idx => bonds ++ [Bond.new (off + oxt_idx) (off + h_idx) .Single]
                  | none => bonds
              | none => l
          | none => l
        else l) := by
    intro l hl
    split
    · split
      · next hc =>
          split
          · next hoxt =>
              have hC := atomPosition_lt hc
              have hO := atomPosition_lt hoxt
              split
              · next hx =>
                  have hX := atomPosition_lt hx
                  split
                  · next hh =>
                      exact hpush (hpush (hpush hl hC hO) hO hX) hO (atomPosition_lt hh)
                  · exact hpush (hpush hl hC hO) hO hX
              · split
                · next hh => exact hpush (hpush hl hC hO) hO (atomPosition_lt hh)
                · exact hpush hl hC hO
          · exact hl
      · exact hl
    · exact hl
  have step3 : ∀ {l : List Bond}, BondsLT N l →
      BondsLT N (if r.position = .FivePrime
        && (r.standard_name.any fun s => s.is_nucleic) then
          match r.atomPosition "HO5'", r.atomPosition "O5'" with
          | some h_idx, some o_idx =>
              l ++ [Bond.new (off + h_idx) (off + o_idx) .Single]
          | _, _ => l
        else l) := by
    intro l hl
    split
    · split
      · next h1 h2 => exact hpush hl (atomPosition_lt h1) (atomPosition_lt h2)
      · exact hl
    · exact hl
  have step4 : ∀ {l : List Bond}, BondsLT N l →
      BondsLT N (if r.position = .ThreePrime
        && (r.standard_name.any fun s => s.is_nucleic) then
          match r.atomPosition "HO3'", r.atomPosition "O3'" with
          | some h_idx, some o_idx =>
              l ++ [Bond.new (off + h_idx) (off + o_idx) .Single]
          | _, _ => l
        else l) := by
    intro l hl
    split
    · split
      · next h1 h2 => exact hpush hl (atomPosition_lt h1) (atomPosition_lt h2)
      · exact hl
    · exact hl
  exact step4 (step3 (step2 step1))

/-- The template-bond fold keeps indices bounded. -/
theorem addTemplateBonds_bounds {b : TopologyBuilder} {r : Residue} {off N : ℕ} :
    ∀ {tb : List (String × String × BondOrder)} {bonds bonds' : List Bond},
    b.addTemplateBonds r off tb bonds = .ok bonds' →
    BondsLT N bonds → off + r.atomCount ≤ N → BondsLT N bonds'
  | [], _, _, h, hb, _ => by cases h; exact hb
  | (a1, a2, o) :: rest, bonds, bonds', h, hb, hN => by
      unfold TopologyBuilder.addTemplateBonds at h
      split at h
      · simp at h
      · next mid hmid =>
          exact addTemplateBonds_bounds h (try_add_bond_bounds hmid hb hN) hN

/-- The template-hydrogen fold keeps indices bounded. -/
theorem addTemplateHydrogens_bounds {b : TopologyBuilder} {r : Residue} {off N : ℕ} :
    ∀ {th : List (String × List String)} {bonds bonds' : List Bond},
    b.addTemplateHydrogens r off th bonds = .ok bonds' →
    BondsLT N bonds → off + r.atomCount ≤ N → BondsLT N bonds'
  | [], _, _, h, hb, _ => by cases h; exact hb
  | (hn, anchors) :: rest, bonds, bonds', h, hb, hN => by
      unfold TopologyBuilder.addTemplateHydrogens at h
      split at h
      · simp at h
      · next mid hmid =>
          refine addTemplateHydrogens_bounds h ?_ hN
          split at hmid
          · split at hmid
            · exact try_add_bond_bounds hmid hb hN
            · cases hmid; exact hb
          · cases hmid; exact hb

/-- `processResidue` keeps indices bounded. -/
theorem processResidue_bounds {b : TopologyBuilder} {r : Residue} {off N : ℕ}
    {bonds bonds' : List Bond} (h : b.processResidue r off bonds = .ok bonds')
    (hb : BondsLT N bonds) (hN : off + r.atomCount ≤ N) : BondsLT N bonds' := by
  unfold TopologyBuilder.processResidue at h
  split at h
  · cases h; exact hb
  · split at h
    · split at h
      · simp at h
      · split at h
        · simp at h
        · split at h
          · simp at h
          · next hh =>
              cases h
              exact handle_terminal_bounds
                (addTemplateHydrogens_bounds hh
                  (addTemplateBonds_bounds (by assumption) hb hN) hN) hN
    · split at h
      · split at h
        · simp at h
        · exact addTemplateBonds_bounds h hb hN
      · cases h; exact hb

/-- The per-chain intra loop: final offset accounting and index bounds. -/
theorem intraChain_ok {b : TopologyBuilder} :
    ∀ {rs : List Residue} {off off' : ℕ} {bonds bonds' : List Bond},
    b.intraChain rs off bonds = .ok (off', bonds') →
    off' = off + chainAtoms rs ∧
    (∀ N, BondsLT N bonds → off + chainAtoms rs ≤ N → BondsLT N bonds')
  | [], _, _, _, _, h => by
      cases h
      exact ⟨by simp [chainAtoms], fun N hb _ => hb⟩
  | r :: rest, off, off', bonds, bonds', h => by
      unfold TopologyBuilder.intraChain at h
      split at h
      · simp at h
      · next mid hmid =>
          obtain ⟨hoff, hbnd⟩ := intraChain_ok h
          constructor
          · rw [hoff]; simp [chainAtoms, Residue.atomCount]; ring
          · intro N hb hN
            have hsum : off + chainAtoms (r :: rest) =
                (off + r.atomCount) + chainAtoms rest := by
              simp [chainAtoms, Residue.atomCount]; ring
            refine hbnd N (processResidue_bounds hmid hb ?_) ?_
            · have : chainAtoms rest ≥ 0 := Nat.zero_le _
              omega
            · omega

/-- The chain loop of the intra phase: offset accounting and bounds. -/
theorem intraChains_ok {b : TopologyBuilder} :
    ∀ {cs : List Chain} {off off' : ℕ} {bonds bonds' : List Bond},
    b.intraChains cs off bonds = .ok (off', bonds') →
    off' = off + (cs.map (fun c => chainAtoms c.residues)).sum ∧
    (∀ N, BondsLT N bonds →
      off + (cs.map (fun c => chainAtoms c.residues)).sum ≤ N → BondsLT N bonds')
  | [], _, _, _, _, h => by
      cases h
      exact ⟨by simp, fun N hb _ => hb⟩
  | c :: rest, off, off', bonds, bonds', h => by
      unfold TopologyBuilder.intraChains at h
      split at h
      · simp at h
      · next o2 b2 hmid =>
          obtain ⟨hoff2, hbnd2⟩ := intraChain_ok hmid
          obtain ⟨hoff, hbnd⟩ := intraChains_ok h
          constructor
          · rw [hoff, hoff2]; simp; ring
          · intro N hb hN
            simp at hN
            refine hbnd N (hbnd2 N hb (by omega)) ?_
            rw [hoff2]
            omega

/-- `chainOffsets` ends at the start plus the chain's atom total, and each
listed offset leaves room for its residue below that total. -/
theorem chainOffsets_spec :
    ∀ (rs : List Residue) (off : ℕ),
    (chainOffsets rs off).2 = off + chainAtoms rs ∧
    ∀ p ∈ rs.zip (chainOffsets rs off).1, p.2 + p.1.atomCount ≤ off + chainAtoms rs
  | [], off => by
      constructor
      · simp [chainOffsets, chainAtoms]
      · intro p hp; simp [chainOffsets] at hp
  | r :: rest, off => by
      obtain ⟨hfin, hmem⟩ := chainOffsets_spec rest (off + r.atomCount)
      have hch : chainAtoms (r :: rest) = r.atomCount + chainAtoms rest := by
        simp [chainAtoms, Residue.atomCount]
      constructor
      · show (chainOffsets rest (off + r.atomCount)).2 = _
        rw [hfin, hch]; ring
      · intro p hp
        rw [show chainOffsets (r :: rest) off =
          (off :: (chainOffsets rest (off + r.atomCount)).1,
           (chainOffsets rest (off + r.atomCount)).2) from rfl] at hp
        rw [List.zip_cons_cons] at hp
        rcases List.mem_cons.mp hp with rfl | hp
        · show off + r.atomCount ≤ off + chainAtoms (r :: rest)
          rw [hch]; omega
        · have := hmem p hp
          rw [hch]; omega

/-- Every per-residue offset of the full table leaves room for its residue
below any bound covering the whole remaining structure. -/
theorem residueOffsetsAux_spec :
    ∀ (cs : List Chain) (off N : ℕ),
    off + (cs.map (fun c => chainAtoms c.residues)).sum ≤ N →
    ∀ p ∈ cs.zip (residueOffsetsAux cs off),
    ∀ q ∈ p.1.residues.zip p.2, q.2 + q.1.atomCount ≤ N
  | [], off, N, hN, p, hp => by simp [residueOffsetsAux] at hp
  | c :: rest, off, N, hN, p, hp => by
      obtain ⟨hfin, hmem⟩ := chainOffsets_spec c.residues off
      rw [show residueOffsetsAux (c :: rest) off =
        (chainOffsets c.residues off).1 ::
          residueOffsetsAux rest (chainOffsets c.residues off).2 from rfl] at hp
      rw [List.zip_cons_cons] at hp
      simp only [List.map_cons, List.sum_cons] at hN
      rcases List.mem_cons.mp hp with rfl | hp
      · intro q hq
        have := hmem q hq
        omega
      · intro q hq
        refine residueOffsetsAux_spec rest (chainOffsets c.residues off).2 N ?_ p hp q hq
        rw [hfin]
        omega

/-- `connect_atoms_if_close` keeps indices bounded. -/
theorem connect_bounds {b : TopologyBuilder} {r1 r2 : Residue}
    {o1 o2 : ℕ} {n1 n2 : String} {cut : ℚ} {o : BondOrder}
    {bonds : List Bond} {N : ℕ} (hb : BondsLT N bonds)
    (h1 : o1 + r1.atomCount ≤ N) (h2 : o2 + r2.atomCount ≤ N) :
    BondsLT N (b.connect_atoms_if_close r1 o1 n1 r2 o2 n2 cut o bonds) := by
  unfold TopologyBuilder.connect_atoms_if_close
  split
  · next i1 a1 i2 a2 hf1 hf2 =>
      split
      · exact bondsLT_push hb (by have := findAtom_lt hf1; omega)
          (by have := findAtom_lt hf2; omega) o
      · exact hb
  · exact hb

/-- The consecutive-pair loop keeps indices bounded. -/
theorem interChainPairs_bounds {b : TopologyBuilder} {N : ℕ} :
    ∀ {rs : List Residue} {offs : List ℕ} {bonds : List Bond},
    BondsLT N bonds → (∀ p ∈ rs.zip offs, p.2 + p.1.atomCount ≤ N) →
    BondsLT N (b.interChainPairs rs offs bonds)
  | [], _, _, hb, _ => hb
  | [_], _, _, hb, _ => hb
  | _ :: _ :: _, [], _, hb, _ => hb
  | _ :: _ :: _, [_], _, hb, _ => hb
  | curr :: next :: rres, o1 :: o2 :: roffs, bonds, hb, hoffs => by
      have hcur : o1 + curr.atomCount ≤ N := by
        refine hoffs (curr, o1) ?_
        rw [List.zip_cons_cons]; exact List.mem_cons_self _ _
      have hnxt : o2 + next.atomCount ≤ N := by
        refine hoffs (next, o2) ?_
        rw [List.zip_cons_cons, List.zip_cons_cons]
        exact List.mem_cons_of_mem _ (List.mem_cons_self _ _)
      have htail : ∀ p ∈ (next :: rres).zip (o2 :: roffs), p.2 + p.1.atomCount ≤ N := by
        intro p hp
        refine hoffs p ?_
        rw [List.zip_cons_cons]
        exact List.mem_cons_of_mem _ hp
      show BondsLT N (b.interChainPairs (next :: rres) (o2 :: roffs) _)
      refine interChainPairs_bounds ?_ htail
      split
      · split
        · split
          · exact connect_bounds hb hcur hnxt
          · split
            · exact connect_bounds hb hcur hnxt
            · exact hb
        · exact hb
      · exact hb

/-- Per-chain sulfur indices are bounded. -/
theorem sulfurAtomsChain_bounds {N : ℕ} {rs : List Residue} {offs : List ℕ}
    (hoffs : ∀ p ∈ rs.zip offs, p.2 + p.1.atomCount ≤ N) :
    ∀ q ∈ sulfurAtomsChain rs offs, q.1 < N := by
  intro q hq
  rcases (sulfurAtomsChain_mem rs offs q).mp hq with ⟨pr, hpr, _, ia, hia, rfl⟩
  have hlt : ia.1 < pr.1.atomCount := by
    obtain ⟨i0, a0⟩ := ia
    exact findAtom_lt hia
  have := hoffs pr hpr
  simp only []
  omega

/-- All sulfur indices of the structure are bounded. -/
theorem sulfurAtoms_bounds {N : ℕ} :
    ∀ {cs : List Chain} {offs : List (List ℕ)},
    (∀ p ∈ cs.zip offs, ∀ q ∈ p.1.residues.zip p.2, q.2 + q.1.atomCount ≤ N) →
    ∀ q ∈ sulfurAtoms cs offs, q.1 < N
  | [], _, _, q, hq => by simp [sulfurAtoms] at hq
  | _ :: _, [], _, q, hq => by simp [sulfurAtoms] at hq
  | c :: cs, co :: offs, hoffs, q, hq => by
      unfold sulfurAtoms at hq
      rcases List.mem_append.mp hq with h | h
      · refine sulfurAtomsChain_bounds ?_ q h
        intro p hp
        refine hoffs (c, co) ?_ p hp
        rw [List.zip_cons_cons]; exact List.mem_cons_self _ _
      · refine sulfurAtoms_bounds ?_ q h
        intro p hp
        refine hoffs p ?_
        rw [List.zip_cons_cons]; exact List.mem_cons_of_mem _ hp

/-- Disulfide bonds keep the bound of the collected sulfur indices. -/
theorem disulfidePairs_bounds {N : ℕ} {cut : ℚ} {l : List (ℕ × Point)}
    (hl : ∀ q ∈ l, q.1 < N) : BondsLT N (disulfidePairs cut l) := by
  intro bd hbd
  rcases (disulfidePairs_mem cut l bd).mp hbd with ⟨p, q, hsub, _, rfl⟩
  have hmem := hsub.subset
  have hp : p ∈ l := hmem (List.mem_cons_self _ _)
  have hq : q ∈ l := hmem (List.mem_cons_of_mem _ (List.mem_cons_self _ _))
  rcases bond_new_eq_or p.1 q.1 .Single with h | h <;> rw [h] <;>
    exact ⟨by first | exact hl p hp | exact hl q hq,
           by first | exact hl p hp | exact hl q hq⟩

/-- Folding the pair loop over the chains keeps indices bounded. -/
theorem foldl_interChainPairs_bounds {b : TopologyBuilder} {N : ℕ} :
    ∀ (ps : List (Chain × List ℕ)) {bonds : List Bond}, BondsLT N bonds →
    (∀ p ∈ ps, ∀ q ∈ p.1.residues.zip p.2, q.2 + q.1.atomCount ≤ N) →
    BondsLT N (ps.foldl (fun bonds p => b.interChainPairs p.1.residues p.2 bonds) bonds)
  | [], _, hb, _ => hb
  | p0 :: rest, bonds, hb, hps => by
      rw [List.foldl_cons]
      refine foldl_interChainPairs_bounds rest ?_ ?_
      · exact interChainPairs_bounds hb (hps p0 (List.mem_cons_self _ _))
      · intro p hp
        exact hps p (List.mem_cons_of_mem _ hp)

/-- The inter phase keeps every index below the structure's atom count. -/
theorem build_inter_residue_bounds {b : TopologyBuilder} {s : Structure}
    {bonds : List Bond} (hb : BondsLT s.atom_count bonds) :
    BondsLT s.atom_count (b.build_inter_residue s bonds) := by
  unfold TopologyBuilder.build_inter_residue
  have hoffs : ∀ p ∈ s.chains.zip (residueOffsets s),
      ∀ q ∈ p.1.residues.zip p.2, q.2 + q.1.atomCount ≤ s.atom_count := by
    refine residueOffsetsAux_spec s.chains 0 s.atom_count ?_
    simp [Structure.atom_count, chainAtoms]
  refine bondsLT_append ?_ (disulfidePairs_bounds
    (sulfurAtoms_bounds hoffs))
  exact foldl_interChainPairs_bounds _ hb hoffs

/-- C4: every bond of a successfully built topology has both flat indices
below the structure's total atom count. -/
theorem claim_c4_bond_indices (b : TopologyBuilder) (s : Structure)
    (t : Topology) (h : b.build s = .ok t) :
    ∀ bd ∈ t.bonds, bd.a1_idx < t.struct.atom_count ∧
      bd.a2_idx < t.struct.atom_count := by
  unfold TopologyBuilder.build at h
  split at h
  · simp at h
  · next bonds0 h0 =>
      cases h
      refine build_inter_residue_bounds ?_
      unfold TopologyBuilder.build_intra_residue at h0
      cases hm : b.intraChains s.chains 0 [] with
      | error e => rw [hm] at h0; simp [Except.map] at h0
      | ok p =>
          rw [hm] at h0
          simp [Except.map] at h0
          subst h0
          obtain ⟨o2, b2⟩ := p
          refine (intraChains_ok hm).2 s.atom_count ?_ ?_
          · intro bd hbd; simp at hbd
          · simp [Structure.atom_count, chainAtoms]

/-- C4 witness: applied to a concrete successful build and bond. -/
theorem claim_c4_witness :
    (Bond.new 0 1 BondOrder.Single).a1_idx < dupStructure.atom_count ∧
    (Bond.new 0 1 BondOrder.Single).a2_idx < dupStructure.atom_count :=
  claim_c4_bond_indices dupBuilder dupStructure
    ⟨dupStructure, [Bond.new 0 1 .Single, Bond.new 0 1 .Single]⟩ rfl
    (Bond.new 0 1 .Single) (by decide)

/-- Componentwise infimum is below its left argument. -/
theorem pointInf_le_left (p q : Point) : pointLE (pointInf p q) p :=
  ⟨min_le_left _ _, min_le_left _ _, min_le_left _ _⟩

/-- Componentwise infimum is below its right argument. -/
theorem pointInf_le_right (p q : Point) : pointLE (pointInf p q) q :=
  ⟨min_le_right _ _, min_le_right _ _, min_le_right _ _⟩

/-- The left argument is below the componentwise supremum. -/
theorem le_pointSup_left (p q : Point) : pointLE p (pointSup p q) :=
  ⟨le_max_left _ _, le_max_left _ _, le_max_left _ _⟩

/-- The right argument is below the componentwise supremum. -/
theorem le_pointSup_right (p q : Point) : pointLE q (pointSup p q) :=
  ⟨le_max_right _ _, le_max_right _ _, le_max_right _ _⟩

/-- The componentwise order is transitive. -/
theorem pointLE_trans {p q r : Point} (h1 : pointLE p q) (h2 : pointLE q r) :
    pointLE p r :=
  ⟨h1.1.trans h2.1, h1.2.1.trans h2.2.1, h1.2.2.trans h2.2.2⟩

/-- The minimum fold is below its starting accumulator. -/
theorem gridMin_le_init :
    ∀ (rest : List (Point × T)) (acc : Point), pointLE (gridMin acc rest) acc
  | [], acc => ⟨le_refl _, le_refl _, le_refl _⟩
  | pr :: rest, acc => by
      have h := gridMin_le_init rest (pointInf acc pr.1)
      exact pointLE_trans h (pointInf_le_left _ _)

/-- The minimum fold is below every folded position. -/
theorem gridMin_le_mem :
    ∀ (rest : List (Point × T)) (acc : Point), ∀ pr ∈ rest,
      pointLE (gridMin acc rest) pr.1
  | [], acc, pr, hpr => by simp at hpr
  | pr0 :: rest, acc, pr, hpr => by
      rcases List.mem_cons.mp hpr with rfl | hpr
      · exact pointLE_trans (gridMin_le_init rest _) (pointInf_le_right _ _)
      · exact gridMin_le_mem rest _ pr hpr

/-- The starting accumulator is below the maximum fold. -/
theorem init_le_gridMax :
    ∀ (rest : List (Point × T)) (acc : Point), pointLE acc (gridMax acc rest)
  | [], acc => ⟨le_refl _, le_refl _, le_refl _⟩
  | pr :: rest, acc => by
      have h := init_le_gridMax rest (pointSup acc pr.1)
      exact pointLE_trans (le_pointSup_left _ _) h

/-- Every folded position is below the maximum fold. -/
theorem mem_le_gridMax :
    ∀ (rest : List (Point × T)) (acc : Point), ∀ pr ∈ rest,
      pointLE pr.1 (gridMax acc rest)
  | [], acc, pr, hpr => by simp at hpr
  | pr0 :: rest, acc, pr, hpr => by
      rcases List.mem_cons.mp hpr with rfl | hpr
      · exact pointLE_trans (le_pointSup_right _ _) (init_le_gridMax rest _)
      · exact mem_le_gridMax rest _ pr hpr

/-- Every stored item of a non-degenerate grid lies inside the bounding
box of the construction folds. -/
theorem mem_box {p0 : Point} {t0 : T} {rest : List (Point × T)} {pr : Point × T}
    (hpr : pr ∈ (p0, t0) :: rest) :
    pointLE (gridMin p0 rest) pr.1 ∧ pointLE pr.1 (gridMax p0 rest) := by
  rcases List.mem_cons.mp hpr with rfl | hpr
  · exact ⟨gridMin_le_init rest p0, init_le_gridMax rest p0⟩
  · exact ⟨gridMin_le_mem rest p0 pr hpr, mem_le_gridMax rest p0 pr hpr⟩

/-- A flattened in-range cell coordinate triple is below the cell total. -/
theorem cell_flat_lt {x y z d1 d2 d3 : ℕ} (hx : x < d1) (hy : y < d2)
    (hz : z < d3) : x + y * d1 + z * d1 * d2 < d1 * d2 * d3 := by
  have h1 : (y + 1) * d1 ≤ d2 * d1 := Nat.mul_le_mul_right d1 hy
  have h2 : (z + 1) * (d1 * d2) ≤ d3 * (d1 * d2) := Nat.mul_le_mul_right (d1 * d2) hz
  have e1 : (y + 1) * d1 = y * d1 + d1 := by ring
  have e2 : (z + 1) * (d1 * d2) = z * (d1 * d2) + d1 * d2 := by ring
  have e3 : d2 * d1 = d1 * d2 := by ring
  have e4 : d3 * (d1 * d2) = d1 * d2 * d3 := by ring
  have e5 : z * d1 * d2 = z * (d1 * d2) := by ring
  linarith

/-- A computed cell index is below the cell total. -/
theorem getCellIndexStatic_lt {pos : Point} {dims : ℕ × ℕ × ℕ}
    {origin : Point} {cell_size : ℚ} {c : ℕ}
    (h : getCellIndexStatic pos dims origin cell_size = some c) :
    c < dims.1 * dims.2.1 * dims.2.2 := by
  unfold getCellIndexStatic at h
  split at h
  · simp at h
  · dsimp only at h
    split at h
    · simp at h
    · next hguard =>
        cases h
        push_neg at hguard
        exact cell_flat_lt hguard.1 hguard.2.1 hguard.2.2

/-- Unfolding a successful cell computation into its coordinates. -/
theorem getCellIndexStatic_eq {pos : Point} {dims : ℕ × ℕ × ℕ}
    {origin : Point} {cell_size : ℚ} {c : ℕ}
    (h : getCellIndexStatic pos dims origin cell_size = some c) :
    ¬(pos.x < origin.x ∨ pos.y < origin.y ∨ pos.z < origin.z) ∧
    (⌊(pos.x - origin.x) / cell_size⌋).toNat < dims.1 ∧
    (⌊(pos.y - origin.y) / cell_size⌋).toNat < dims.2.1 ∧
    (⌊(pos.z - origin.z) / cell_size⌋).toNat < dims.2.2 ∧
    c = (⌊(pos.x - origin.x) / cell_size⌋).toNat +
        (⌊(pos.y - origin.y) / cell_size⌋).toNat * dims.1 +
        (⌊(pos.z - origin.z) / cell_size⌋).toNat * dims.1 * dims.2.1 := by
  unfold getCellIndexStatic at h
  split at h
  · simp at h
  · next hneg =>
      dsimp only at h
      split at h
      · simp at h
      · next hguard =>
          cases h
          push_neg at hguard
          exact ⟨hneg, hguard.1, hguard.2.1, hguard.2.2, rfl⟩

/-- `getD` after `set` at the same in-range position. -/
theorem getD_set_self {l : List (List ℕ)} {c : ℕ} (h : c < l.length)
    (v : List ℕ) : (l.set c v).getD c [] = v := by
  simp [List.getD, List.getElem?_set_self, h]

/-- `getD` after `set` at a different position. -/
theorem getD_set_ne {l : List (List ℕ)} {c c' : ℕ} (h : c ≠ c')
    (v : List ℕ) : (l.set c v).getD c' [] = l.getD c' [] := by
  simp [List.getD, List.getElem?_set_ne h]

/-- Every bucket of the initial table is empty. -/
theorem getD_replicate_nil (total c : ℕ) :
    (List.replicate total ([] : List ℕ)).getD c [] = [] := by
  rcases lt_or_ge c total with h | h
  · simp [List.getD, List.getElem?_replicate, h]
  · have hlen : (List.replicate total ([] : List ℕ)).length ≤ c := by simpa using h
    simp [List.getD, List.getElem?_eq_none hlen]

/-- Insertion preserves the table length. -/
theorem bucketInsert_length {dims : ℕ × ℕ × ℕ} {origin : Point} {cs : ℚ}
    (bks : List (List ℕ)) (p : ℕ × (Point × T)) :
    (bucketInsert dims origin cs bks p).length = bks.length := by
  unfold bucketInsert
  split
  · exact List.length_set bks _ _
  · rfl

/-- Membership in a bucket after folding the insertion loop: an index is
in cell `c` exactly when its item's cell is `c` (or it was there before). -/
theorem foldl_bucketInsert_mem {dims : ℕ × ℕ × ℕ} {origin : Point} {cs : ℚ} :
    ∀ (l : List (ℕ × (Point × T))) (bks : List (List ℕ)),
    (∀ p ∈ l, ∀ cc, getCellIndexStatic p.2.1 dims origin cs = some cc →
      cc < bks.length) →
    ∀ (c i : ℕ),
    (i ∈ (l.foldl (bucketInsert dims origin cs) bks).getD c [] ↔
      (∃ pr, (i, pr) ∈ l ∧ getCellIndexStatic pr.1 dims origin cs = some c) ∨
        i ∈ bks.getD c [])
  | [], bks, _, c, i => by simp
  | p0 :: l, bks, hvalid, c, i => by
      rw [List.foldl_cons]
      have hlen : (bucketInsert dims origin cs bks p0).length = bks.length :=
        bucketInsert_length bks p0
      have ih := foldl_bucketInsert_mem l (bucketInsert dims origin cs bks p0)
        (fun p hp cc hcc => by
          rw [hlen]; exact hvalid p (List.mem_cons_of_mem _ hp) cc hcc) c i
      rw [ih]
      have hstep : i ∈ (bucketInsert dims origin cs bks p0).getD c [] ↔
          ((i = p0.1 ∧ getCellIndexStatic p0.2.1 dims origin cs = some c) ∨
            i ∈ bks.getD c []) := by
        unfold bucketInsert
        cases hcell : getCellIndexStatic p0.2.1 dims origin cs with
        | none => simp [hcell]
        | some cp =>
            have hcp : cp < bks.length :=
              hvalid p0 (List.mem_cons_self _ _) cp hcell
            by_cases hc : cp = c
            · subst hc
              rw [getD_set_self hcp]
              simp [hcell]
            · rw [getD_set_ne hc]
              constructor
              · exact fun h => .inr h
              · rintro (⟨rfl, hcc⟩ | h)
                · cases hcc
                  exact absurd rfl hc
                · exact h
      rw [hstep]
      constructor
      · rintro ((⟨pr, hpr, hc⟩) | (⟨rfl, hc⟩ | h))
        · exact .inl ⟨pr, List.mem_cons_of_mem _ hpr, hc⟩
        · exact .inl ⟨p0.2, by rw [List.mem_cons]; exact .inl (by simp), hc⟩
        · exact .inr h
      · rintro (⟨pr, hpr, hc⟩ | h)
        · rcases List.mem_cons.mp hpr with heq | hpr
          · refine .inr (.inl ?_)
            have h1 : i = p0.1 := by
              have := congrArg Prod.fst heq; simpa using this
            have h2 : pr = p0.2 := by
              have := congrArg Prod.snd heq; simpa using this
            subst h1; subst h2
            exact ⟨rfl, hc⟩
          · exact .inl ⟨pr, hpr, hc⟩
        · exact .inr (.inr h)

/-- Per-axis: the floor of an in-box offset is below the padded ceiling
that defines the cell count. -/
theorem floor_lt_dim {a m o s : ℚ} (hs : 0 < s) (h : a ≤ m) :
    ⌊(a - o) / s⌋ < (⌈(m + 1 / 1000000 - o) / s⌉ : ℤ) := by
  have h1 : ((⌊(a - o) / s⌋ : ℤ) : ℚ) ≤ (a - o) / s := Int.floor_le _
  have h2 : (a - o) / s < (m + 1 / 1000000 - o) / s := by
    rw [div_lt_div_iff_of_pos_right hs]
    linarith
  have h3 : (m + 1 / 1000000 - o) / s ≤ ((⌈(m + 1 / 1000000 - o) / s⌉ : ℤ) : ℚ) :=
    Int.le_ceil _
  exact_mod_cast h1.trans_lt (h2.trans_le h3)

/-- A position inside the construction bounding box always has a valid
cell, namely the flattened floor coordinates. -/
theorem box_cell_some {p mn mx0 : Point} {s : ℚ} (hs : 0 < s)
    (hmn : pointLE mn p) (hmx : pointLE p mx0) :
    getCellIndexStatic p (dimsOf mn mx0 s) mn s =
      some ((⌊(p.x - mn.x) / s⌋).toNat +
            (⌊(p.y - mn.y) / s⌋).toNat * (dimsOf mn mx0 s).1 +
            (⌊(p.z - mn.z) / s⌋).toNat * (dimsOf mn mx0 s).1 *
              (dimsOf mn mx0 s).2.1) := by
  obtain ⟨hx1, hy1, hz1⟩ := hmn
  obtain ⟨hx2, hy2, hz2⟩ := hmx
  have hfx := floor_lt_dim (a := p.x) (m := mx0.x) (o := mn.x) hs hx2
  have hfy := floor_lt_dim (a := p.y) (m := mx0.y) (o := mn.y) hs hy2
  have hfz := floor_lt_dim (a := p.z) (m := mx0.z) (o := mn.z) hs hz2
  have hnx : 0 ≤ ⌊(p.x - mn.x) / s⌋ :=
    Int.floor_nonneg.mpr (div_nonneg (by linarith) hs.le)
  have hny : 0 ≤ ⌊(p.y - mn.y) / s⌋ :=
    Int.floor_nonneg.mpr (div_nonneg (by linarith) hs.le)
  have hnz : 0 ≤ ⌊(p.z - mn.z) / s⌋ :=
    Int.floor_nonneg.mpr (div_nonneg (by linarith) hs.le)
  unfold getCellIndexStatic
  rw [if_neg (by push_neg; exact ⟨hx1, hy1, hz1⟩)]
  dsimp only
  have hguard : ¬((dimsOf mn mx0 s).1 ≤ (⌊(p.x - mn.x) / s⌋).toNat ∨
      (dimsOf mn mx0 s).2.1 ≤ (⌊(p.y - mn.y) / s⌋).toNat ∨
      (dimsOf mn mx0 s).2.2 ≤ (⌊(p.z - mn.z) / s⌋).toNat) := by
    push_neg
    unfold dimsOf
    dsimp only
    refine ⟨by omega, by omega, by omega⟩
  rw [if_neg hguard]

/-- A point within squared distance `r * r` of the center lies in the
axis-aligned box `[center - r, center + r]`. -/
theorem distSq_le_bounds {p c : Point} {r : ℚ} (hr : 0 ≤ r)
    (h : distSq p c ≤ r * r) :
    c.x - r ≤ p.x ∧ p.x ≤ c.x + r ∧ c.y - r ≤ p.y ∧ p.y ≤ c.y + r ∧
      c.z - r ≤ p.z ∧ p.z ≤ c.z + r := by
  unfold distSq at h
  refine ⟨?_, ?_, ?_, ?_, ?_, ?_⟩ <;>
    nlinarith [sq_nonneg (p.x - c.x), sq_nonneg (p.y - c.y), sq_nonneg (p.z - c.z),
      sq_nonneg (p.x - c.x + r), sq_nonneg (p.x - c.x - r),
      sq_nonneg (p.y - c.y + r), sq_nonneg (p.y - c.y - r),
      sq_nonneg (p.z - c.z + r), sq_nonneg (p.z - c.z - r)]

/-- Per-axis clamp bounds: the clamped floors of the box corners bracket
the (in-range) floor coordinate of any position between them. -/
theorem clamp_bounds {l u v o s : ℚ} {d : ℕ} (hs : 0 < s)
    (hlo : l ≤ v) (hhi : v ≤ u) (ho : o ≤ v)
    (hd : (⌊(v - o) / s⌋).toNat < d) :
    clampCoord ⌊(l - o) / s⌋ d ≤ (⌊(v - o) / s⌋).toNat ∧
    (⌊(v - o) / s⌋).toNat ≤ clampCoord ⌊(u - o) / s⌋ d := by
  have hnn : 0 ≤ ⌊(v - o) / s⌋ :=
    Int.floor_nonneg.mpr (div_nonneg (by linarith) hs.le)
  have hlo2 : ⌊(l - o) / s⌋ ≤ ⌊(v - o) / s⌋ :=
    Int.floor_le_floor ((div_le_div_iff_of_pos_right hs).mpr (by linarith))
  have hhi2 : ⌊(v - o) / s⌋ ≤ ⌊(u - o) / s⌋ :=
    Int.floor_le_floor ((div_le_div_iff_of_pos_right hs).mpr (by linarith))
  unfold clampCoord
  omega

/-- The stored items of the non-degenerate construction. -/
theorem nonemptyGrid_items (items : List (Point × T)) (p0 : Point)
    (rest : List (Point × T)) (s : ℚ) :
    (nonemptyGrid items p0 rest s).items = items := rfl

/-- The origin of the non-degenerate construction. -/
theorem nonemptyGrid_origin (items : List (Point × T)) (p0 : Point)
    (rest : List (Point × T)) (s : ℚ) :
    (nonemptyGrid items p0 rest s).origin = gridMin p0 rest := rfl

/-- The dimensions of the non-degenerate construction. -/
theorem nonemptyGrid_dims (items : List (Point × T)) (p0 : Point)
    (rest : List (Point × T)) (s : ℚ) :
    (nonemptyGrid items p0 rest s).dims =
      dimsOf (gridMin p0 rest) (gridMax p0 rest) s := rfl

/-- The cell size of the non-degenerate construction. -/
theorem nonemptyGrid_cell_size (items : List (Point × T)) (p0 : Point)
    (rest : List (Point × T)) (s : ℚ) :
    (nonemptyGrid items p0 rest s).cell_size = s := rfl

/-- The buckets of the non-degenerate construction. -/
theorem nonemptyGrid_buckets (items : List (Point × T)) (p0 : Point)
    (rest : List (Point × T)) (s : ℚ) :
    (nonemptyGrid items p0 rest s).buckets =
      buildBuckets items (dimsOf (gridMin p0 rest) (gridMax p0 rest) s)
        (gridMin p0 rest) s
        ((dimsOf (gridMin p0 rest) (gridMax p0 rest) s).1 *
         (dimsOf (gridMin p0 rest) (gridMax p0 rest) s).2.1 *
         (dimsOf (gridMin p0 rest) (gridMax p0 rest) s).2.2) := rfl

/-- A coordinate triple between the clamped box corners is scanned. -/
theorem mem_candidateCells_of_between {g : Grid T} {center : Point} {r : ℚ}
    {cx cy cz : ℕ}
    (h1 : (g.getGridCoords ⟨center.x - r, center.y - r, center.z - r⟩).1 ≤ cx)
    (h2 : cx ≤ (g.getGridCoords ⟨center.x + r, center.y + r, center.z + r⟩).1)
    (h3 : (g.getGridCoords ⟨center.x - r, center.y - r, center.z - r⟩).2.1 ≤ cy)
    (h4 : cy ≤ (g.getGridCoords ⟨center.x + r, center.y + r, center.z + r⟩).2.1)
    (h5 : (g.getGridCoords ⟨center.x - r, center.y - r, center.z - r⟩).2.2 ≤ cz)
    (h6 : cz ≤ (g.getGridCoords ⟨center.x + r, center.y + r, center.z + r⟩).2.2) :
    cx + cy * g.dims.1 + cz * g.dims.1 * g.dims.2.1 ∈
      g.candidateCells center r := by
  unfold Grid.candidateCells
  dsimp only
  refine List.mem_flatMap.mpr ⟨cz, ?_, List.mem_flatMap.mpr ⟨cy, ?_,
    List.mem_map.mpr ⟨cx, ?_, rfl⟩⟩⟩ <;>
    · unfold cellRange
      exact List.mem_range'_1.mpr ⟨by omega, by omega⟩

/-- Superset: every stored item within the query radius is yielded by the
raw candidate iterator of the non-degenerate grid. -/
theorem nonemptyGrid_mem_candidates {p0 : Point} {t0 : T}
    {rest : List (Point × T)} {s r : ℚ} (hs : 0 < s) (hr : 0 ≤ r)
    {center : Point} {i : ℕ} {pr : Point × T}
    (hi : ((p0, t0) :: rest).get? i = some pr)
    (hw : distSq pr.1 center ≤ r * r) :
    i ∈ (nonemptyGrid ((p0, t0) :: rest) p0 rest s).candidates center r := by
  have hprmem : pr ∈ (p0, t0) :: rest := List.get?_mem hi
  obtain ⟨hmn, hmx⟩ := mem_box hprmem
  have hcell := box_cell_some (p := pr.1) hs hmn hmx
  have hco := getCellIndexStatic_eq hcell
  obtain ⟨b1, b2, b3, b4, b5, b6⟩ := distSq_le_bounds hr hw
  have hcx := clamp_bounds (l := center.x - r) (u := center.x + r)
    (v := pr.1.x) (o := (gridMin p0 rest).x)
    (d := (dimsOf (gridMin p0 rest) (gridMax p0 rest) s).1)
    hs b1 b2 hmn.1 hco.2.1
  have hcy := clamp_bounds (l := center.y - r) (u := center.y + r)
    (v := pr.1.y) (o := (gridMin p0 rest).y)
    (d := (dimsOf (gridMin p0 rest) (gridMax p0 rest) s).2.1)
    hs b3 b4 hmn.2.1 hco.2.2.1
  have hcz := clamp_bounds (l := center.z - r) (u := center.z + r)
    (v := pr.1.z) (o := (gridMin p0 rest).z)
    (d := (dimsOf (gridMin p0 rest) (gridMax p0 rest) s).2.2)
    hs b5 b6 hmn.2.2 hco.2.2.2.1
  have hcells : (⌊(pr.1.x - (gridMin p0 rest).x) / s⌋).toNat +
      (⌊(pr.1.y - (gridMin p0 rest).y) / s⌋).toNat *
        (nonemptyGrid ((p0, t0) :: rest) p0 rest s).dims.1 +
      (⌊(pr.1.z - (gridMin p0 rest).z) / s⌋).toNat *
        (nonemptyGrid ((p0, t0) :: rest) p0 rest s).dims.1 *
        (nonemptyGrid ((p0, t0) :: rest) p0 rest s).dims.2.1 ∈
      (nonemptyGrid ((p0, t0) :: rest) p0 rest s).candidateCells center r := by
    refine mem_candidateCells_of_between ?_ ?_ ?_ ?_ ?_ ?_
    · exact hcx.1
    · exact hcx.2
    · exact hcy.1
    · exact hcy.2
    · exact hcz.1
    · exact hcz.2
  have hvalid : ∀ p ∈ ((p0, t0) :: rest).enum, ∀ cc,
      getCellIndexStatic p.2.1 (dimsOf (gridMin p0 rest) (gridMax p0 rest) s)
        (gridMin p0 rest) s = some cc →
      cc < (List.replicate
        ((dimsOf (gridMin p0 rest) (gridMax p0 rest) s).1 *
         (dimsOf (gridMin p0 rest) (gridMax p0 rest) s).2.1 *
         (dimsOf (gridMin p0 rest) (gridMax p0 rest) s).2.2)
        ([] : List ℕ)).length := by
    intro p _ cc hcc
    rw [List.length_replicate]
    exact getCellIndexStatic_lt hcc
  have hbucket : i ∈ (nonemptyGrid ((p0, t0) :: rest) p0 rest s).buckets.getD
      ((⌊(pr.1.x - (gridMin p0 rest).x) / s⌋).toNat +
       (⌊(pr.1.y - (gridMin p0 rest).y) / s⌋).toNat *
         (dimsOf (gridMin p0 rest) (gridMax p0 rest) s).1 +
       (⌊(pr.1.z - (gridMin p0 rest).z) / s⌋).toNat *
         (dimsOf (gridMin p0 rest) (gridMax p0 rest) s).1 *
         (dimsOf (gridMin p0 rest) (gridMax p0 rest) s).2.1) [] := by
    rw [nonemptyGrid_buckets]
    unfold buildBuckets
    rw [foldl_bucketInsert_mem _ _ hvalid]
    exact .inl ⟨pr, List.mk_mem_enum_iff_get?.mpr hi, hcell⟩
  show i ∈ Grid.candidates _ center r
  unfold Grid.candidates
  rw [if_neg (by rw [nonemptyGrid_items]; simp)]
  exact List.mem_flatMap.mpr ⟨_, hcells, hbucket⟩

/-- Every raw candidate of the non-degenerate grid is a stored item. -/
theorem nonemptyGrid_candidates_get? {items : List (Point × T)} {p0 : Point}
    {rest : List (Point × T)} {s : ℚ} {center : Point} {radius : ℚ} {i : ℕ}
    (h : i ∈ (nonemptyGrid items p0 rest s).candidates center radius) :
    ∃ pr, items.get? i = some pr := by
  unfold Grid.candidates at h
  split at h
  · simp at h
  · rcases List.mem_flatMap.mp h with ⟨c, _, hb⟩
    rw [nonemptyGrid_buckets] at hb
    unfold buildBuckets at hb
    rw [foldl_bucketInsert_mem _ _ (fun p _ cc hcc => by
      rw [List.length_replicate]; exact getCellIndexStatic_lt hcc)] at hb
    rcases hb with ⟨pr, hpr, _⟩ | hb
    · exact ⟨pr, List.mk_mem_enum_iff_get?.mp hpr⟩
    · rw [getD_replicate_nil] at hb
      simp at hb

/-- C1: for every stored item set, center and non-negative radius, the
`exact()` result equals the brute-force set of stored items within true
distance, and every exact result is a raw candidate (the candidate set is
thus a superset of the exact set). -/
theorem claim_c1_grid_exact_query (T : Type) (items : List (Point × T))
    (s r : ℚ) (g : Grid T) (hg : Grid.new items s = some g) (hr : 0 ≤ r)
    (center : Point) :
    (∀ i : ℕ, i ∈ g.exactIdx center r ↔
      ∃ pr, g.items.get? i = some pr ∧ distSq pr.1 center ≤ r * r) ∧
    (∀ i : ℕ, i ∈ g.exactIdx center r → i ∈ g.candidates center r) := by
  have hs : 0 < s := by
    by_contra hle
    push_neg at hle
    unfold Grid.new at hg
    rw [if_pos hle] at hg
    simp at hg
  unfold Grid.new at hg
  rw [if_neg (not_le.mpr hs)] at hg
  cases items with
  | nil =>
      have hg2 : g = ⟨s, Point.origin, (0, 0, 0), [], []⟩ := by
        injection hg with h; exact h.symm
      subst hg2
      constructor
      · intro i
        constructor
        · intro hm
          simp [Grid.exactIdx, Grid.candidates] at hm
        · rintro ⟨pr, hget, _⟩
          simp at hget
      · intro i hm
        exact List.mem_of_mem_filter hm
  | cons hd tl =>
      obtain ⟨ph, th⟩ := hd
      have hg2 : g = nonemptyGrid ((ph, th) :: tl) ph tl s := by
        injection hg with h; exact h.symm
      subst hg2
      constructor
      · intro i
        constructor
        · intro hmem
          have hcand := List.mem_of_mem_filter hmem
          obtain ⟨pr, hget⟩ := nonemptyGrid_candidates_get? hcand
          have hwb := List.of_mem_filter hmem
          have hwb2 : (match ((ph, th) :: tl).get? i with
              | some pr => decide (distSq pr.1 center ≤ r * r)
              | none => false) = true := hwb
          rw [hget] at hwb2
          exact ⟨pr, hget, by simpa using hwb2⟩
        · rintro ⟨pr, hget, hw⟩
          refine List.mem_filter.mpr ⟨?_, ?_⟩
          · exact nonemptyGrid_mem_candidates hs hr hget hw
          · show (match ((ph, th) :: tl).get? i with
                | some pr => decide (distSq pr.1 center ≤ r * r)
                | none => false) = true
            have hget2 : ((ph, th) :: tl).get? i = some pr := hget
            rw [hget2]
            simpa using hw
      · intro i hmem
        exact List.mem_of_mem_filter hmem

/-- C1 witness: applied to a concrete two-item grid. -/
theorem claim_c1_witness :
    (0 ∈ gridG.exactIdx ⟨0, 0, 0⟩ 1 ↔
      ∃ pr, gridG.items.get? 0 = some pr ∧ distSq pr.1 ⟨0, 0, 0⟩ ≤ 1 * 1) :=
  (claim_c1_grid_exact_query ℕ gridItems 1 1 gridG (by decide) (by decide)
    ⟨0, 0, 0⟩).1 0

/-- C9: `Grid::new` rejects (panics on) exactly the non-positive cell
sizes; every raw candidate index of a constructed grid addresses a stored
item (all internal indexing in bounds); and a query whose radius captures
no stored item yields the empty exact result. -/
theorem claim_c9_grid_safety :
    (∀ (T : Type) (items : List (Point × T)) (s : ℚ),
      Grid.new items s = none ↔ s ≤ 0) ∧
    (∀ (T : Type) (items : List (Point × T)) (s : ℚ) (g : Grid T),
      Grid.new items s = some g → ∀ (center : Point) (radius : ℚ) (i : ℕ),
      i ∈ g.candidates center radius → i < g.items.length) ∧
    (∀ (T : Type) (items : List (Point × T)) (s : ℚ) (g : Grid T),
      Grid.new items s = some g → ∀ (center : Point) (radius : ℚ),
      (∀ pr ∈ g.items, ¬ distSq pr.1 center ≤ radius * radius) →
      g.exactIdx center radius = []) := by
  refine ⟨?_, ?_, ?_⟩
  · intro T items s
    unfold Grid.new
    split <;> simp_all
  · intro T items s g hg center radius i hi
    have hs : 0 < s := by
      by_contra hle
      push_neg at hle
      unfold Grid.new at hg
      rw [if_pos hle] at hg
      simp at hg
    unfold Grid.new at hg
    rw [if_neg (not_le.mpr hs)] at hg
    cases items with
    | nil =>
        have hg2 : g = ⟨s, Point.origin, (0, 0, 0), [], []⟩ := by
          injection hg with h; exact h.symm
        subst hg2
        simp [Grid.candidates] at hi
    | cons hd tl =>
        obtain ⟨ph, th⟩ := hd
        have hg2 : g = nonemptyGrid ((ph, th) :: tl) ph tl s := by
          injection hg with h; exact h.symm
        subst hg2
        obtain ⟨pr, hget⟩ := nonemptyGrid_candidates_get? hi
        by_contra hlen
        push_neg at hlen
        have : ((ph, th) :: tl).get? i = none := List.get?_eq_none.mpr hlen
        rw [hget] at this
        cases this
  · intro T items s g hg center radius hempty
    have hs : 0 < s := by
      by_contra hle
      push_neg at hle
      unfold Grid.new at hg
      rw [if_pos hle] at hg
      simp at hg
    unfold Grid.new at hg
    rw [if_neg (not_le.mpr hs)] at hg
    cases items with
    | nil =>
        have hg2 : g = ⟨s, Point.origin, (0, 0, 0), [], []⟩ := by
          injection hg with h; exact h.symm
        subst hg2
        rfl
    | cons hd tl =>
        obtain ⟨ph, th⟩ := hd
        have hg2 : g = nonemptyGrid ((ph, th) :: tl) ph tl s := by
          injection hg with h; exact h.symm
        subst hg2
        refine List.filter_eq_nil.mpr ?_
        intro i hi
        obtain ⟨pr, hget⟩ := nonemptyGrid_candidates_get? hi
        show ¬((match ((ph, th) :: tl).get? i with
            | some pr => decide (distSq pr.1 center ≤ radius * radius)
            | none => false) = true)
        rw [hget]
        simpa using hempty pr (List.get?_mem hget)

/-- C9 witness: a far-away query on the concrete grid yields nothing. -/
theorem claim_c9_witness :
    gridG.exactIdx ⟨100, 100, 100⟩ 1 = [] :=
  claim_c9_grid_safety.2.2 ℕ gridItems 1 gridG (by decide)
    ⟨100, 100, 100⟩ 1 (by decide)

end RatReducibility

end BioForge
